import Mathlib

/-!
# netconf-cli: schema tree and command grammar

A shallow embedding of `src/CTree.hpp`, `src/parser_context.hpp` and
`src/grammars.hpp`.

* Iterators into the input line are offsets (`Nat`) into a fixed `List Char`.
* A Spirit X3 `parse` call (a `bool` result, an iterator passed by reference, an
  attribute passed by reference, the `ParserContext` reached through the X3
  context, and possibly a thrown exception) is a function to `PResult`: the three
  outcomes are `ok` (returned `true`), `fail` (returned `false`) and `raise`
  (an exception left the call).  All three carry the `ParserContext` as the
  call left it; `ok` and `fail` also carry the attribute and the iterator as the
  call left them.
* The grammar runs under the white-space skipper: `x3::eps`, literals and symbol
  tables skip white space before they match (`x3.skip_over`), while
  `space_separator` and the parsers under `x3::no_skip` do not.
-/

set_option autoImplicit false

/-! ## Schema tree (`CTree.hpp`)

`CTree.hpp` declares the class; the bodies of its member functions are not among
the sources and are modelled from the specification.  A location is its path
string, the key of the registry: the members that take a `path_` convert it to
that string first. -/

namespace schema

/-- Source: `struct container {}` of `CTree.hpp`. -/
structure container where
  deriving DecidableEq, Repr

/-- Source: `struct list { std::set<std::string> m_keys; }` of `CTree.hpp`. -/
structure list where
  m_keys : Finset String
  deriving DecidableEq

end schema

/-- Source: `using NodeType = boost::variant<schema::container, schema::list>`. -/
inductive NodeType where
  | container (c : schema.container)
  | list (l : schema.list)
  deriving DecidableEq

/-- The two ways a schema-tree read can fail.  `InvalidNodeException` is the class
declared in `CTree.hpp` (the "unknown node" error); `notAList` stands for the
failure of `listKeys` on a node that exists but is not a list. -/
inductive CTreeError where
  | InvalidNodeException
  | notAList
  deriving DecidableEq, Repr

/-- Source: `std::unordered_map<std::string, NodeType>`: the children of one location. -/
abbrev ChildMap := List (String × NodeType)

/-- Source: `class CTree`: its only data member is
`std::unordered_map<std::string, std::unordered_map<std::string, NodeType>> m_nodes`.
The maps are association lists with at most one entry per key in use. -/
structure CTree where
  m_nodes : List (String × ChildMap)
  deriving DecidableEq

/-- Lookup in an `unordered_map` keyed by strings. -/
def umapFind {β : Type} (k : String) : List (String × β) → Option β
  | [] => none
  | (k', v) :: rest => if k' = k then some v else umapFind k rest

/-- Insertion with overwrite-by-key into an `unordered_map` keyed by strings. -/
def umapAssign {β : Type} (k : String) (v : β) : List (String × β) → List (String × β)
  | [] => [(k, v)]
  | (k', v') :: rest => if k' = k then (k, v) :: rest else (k', v') :: umapAssign k v rest

/-- Insertion that keeps an entry already present under the key. -/
def umapEmplace {β : Type} (k : String) (v : β) (m : List (String × β)) : List (String × β) :=
  match umapFind k m with
  | some _ => m
  | none => m ++ [(k, v)]

namespace CTree

/-- Modelled from the spec: `CTree::CTree()` (CTree.cpp is absent).  The registry
starts with the implicit root location, which has no children. -/
def empty : CTree := ⟨[("", [])]⟩

/-- Modelled from the spec: the full path string of the child `name` of `location`,
the key under which the child's own children are registered (CTree.cpp is
absent). -/
def joinPaths (location name : String) : String :=
  if location = "" then name else location ++ "/" ++ name

/-- Modelled from the spec: `CTree::children` (CTree.cpp is absent), the internal
helper keyed on the parent's full path string.  `none` is the unknown location;
a registered location without children yields the empty child set. -/
def children (t : CTree) (location : String) : Option ChildMap :=
  umapFind location t.m_nodes

/-- Modelled from the spec: `CTree::nodeExists` (CTree.cpp is absent): never fails,
false on unknown location or name. -/
def nodeExists (t : CTree) (location name : String) : Bool :=
  match t.children location with
  | none => false
  | some ch => (umapFind name ch).isSome

/-- Modelled from the spec: the lookup shared by the read operations (CTree.cpp is
absent).  It yields the node registered under `(location, name)`, or the "unknown
node" error when the location is absent from the registry or the name is absent
under it. -/
def node (t : CTree) (location name : String) : Except CTreeError NodeType :=
  match t.children location with
  | none => .error .InvalidNodeException
  | some ch =>
    match umapFind name ch with
    | none => .error .InvalidNodeException
    | some n => .ok n

/-- Modelled from the spec: `CTree::isContainer` (CTree.cpp is absent): classifies an
existing node, fails if the node does not exist. -/
def isContainer (t : CTree) (location name : String) : Except CTreeError Bool :=
  match t.node location name with
  | .error e => .error e
  | .ok (.container _) => .ok true
  | .ok (.list _) => .ok false

/-- Modelled from the spec: `CTree::isList` (CTree.cpp is absent): classifies an
existing node, fails if the node does not exist. -/
def isList (t : CTree) (location name : String) : Except CTreeError Bool :=
  match t.node location name with
  | .error e => .error e
  | .ok (.container _) => .ok false
  | .ok (.list _) => .ok true

/-- Modelled from the spec: `CTree::listKeys` (CTree.cpp is absent): the key-leaf set
of a list node; fails if the node is not a list or does not exist. -/
def listKeys (t : CTree) (location name : String) : Except CTreeError (Finset String) :=
  match t.node location name with
  | .error e => .error e
  | .ok (.container _) => .error .notAList
  | .ok (.list l) => .ok l.m_keys

/-- Modelled from the spec: `CTree::listHasKey` (CTree.cpp is absent): the membership
test over `listKeys`. -/
def listHasKey (t : CTree) (location name key : String) : Except CTreeError Bool :=
  match t.listKeys location name with
  | .error e => .error e
  | .ok keys => .ok (decide (key ∈ keys))

/-- Modelled from the spec: the insertion of the child `name` of kind `n` under
`location`, common to `addContainer` and `addList` (CTree.cpp is absent).  A
child cannot be added before its location
exists: the lookup of an unknown location fails with the "unknown node"
condition and the registry is left as it was.  Otherwise the child is inserted
with overwrite-by-key, and the child's own location comes into existence (with
no children) unless it is registered already. -/
def addNode (t : CTree) (location name : String) (n : NodeType) : Except CTreeError CTree :=
  match t.children location with
  | none => .error .InvalidNodeException
  | some ch =>
    .ok ⟨umapEmplace (joinPaths location name) [] (umapAssign location (umapAssign name n ch) t.m_nodes)⟩

/-- Modelled from the spec: `CTree::addContainer` (CTree.cpp is absent). -/
def addContainer (t : CTree) (location name : String) : Except CTreeError CTree :=
  t.addNode location name (.container {})

/-- Modelled from the spec: `CTree::addList` (CTree.cpp is absent). -/
def addList (t : CTree) (location name : String) (keys : Finset String) :
    Except CTreeError CTree :=
  t.addNode location name (.list ⟨keys⟩)

end CTree

/-- One construction-time call on the schema tree. -/
inductive AddCall where
  | addContainer (location name : String)
  | addList (location name : String) (keys : Finset String)
  deriving DecidableEq

/-- The `(location, name)` pair a call registers. -/
def AddCall.target : AddCall → String × String
  | .addContainer location name => (location, name)
  | .addList location name _ => (location, name)

/-- One call applied to a tree. -/
def AddCall.run (t : CTree) : AddCall → Except CTreeError CTree
  | .addContainer location name => t.addContainer location name
  | .addList location name keys => t.addList location name keys

/-- A sequence of construction calls applied in order.  A call that fails (its
location is unknown) throws before it touches the registry, so the tree is the
one before the call and the builder goes on with the next call. -/
def CTree.build (t : CTree) : List AddCall → CTree
  | [] => t
  | c :: rest =>
    match c.run t with
    | .ok t' => CTree.build t' rest
    | .error _ => CTree.build t rest

/-- The pairs registered by the calls of a sequence that succeeded, starting
from the tree `t`. -/
def CTree.registered (t : CTree) : List AddCall → List (String × String)
  | [] => []
  | c :: rest =>
    match c.run t with
    | .ok t' => c.target :: CTree.registered t' rest
    | .error _ => CTree.registered t rest

/-! ## Paths and command values (the AST headers are not part of the sources) -/

/-- The value of a leaf, an opaque typed token. -/
abbrev leaf_data_ := String

/-- Source: `ListInstance`: the mapping from key-leaf name to value of a list instance. -/
abbrev ListInstance := List (String × leaf_data_)

/-- A module (namespace) name. -/
structure module_ where
  m_name : String
  deriving DecidableEq, Repr

/-- The suffix of a data path segment, a closed variant.  `grammars.hpp` names
`listElement_` (with `m_name`), `leafListElement_` and `list_`; `CTree.hpp`
names `nodeup_`. -/
inductive dataSuffix where
  | container_ (m_name : String)
  | listElement_ (m_name : String) (m_keys : ListInstance)
  | nodeup_
  | leaf_ (m_name : String)
  | leafListElement_ (m_name : String) (m_value : leaf_data_)
  | leafList_ (m_name : String)
  | list_ (m_name : String)
  | rpcNode_ (m_name : String)
  | actionNode_ (m_name : String)
  deriving DecidableEq, Repr

/-- One path segment: `m_nodes.emplace_back(prefix, suffix)`. -/
structure dataNode_ where
  m_prefix : Option module_
  m_suffix : dataSuffix
  deriving DecidableEq, Repr

/-- Whether a path starts at the root. -/
inductive Scope where
  | Absolute
  | Relative
  deriving DecidableEq, Repr

/-- A data path: an ordered sequence of segments. -/
structure dataPath_ where
  m_scope : Scope
  m_nodes : List dataNode_
  deriving DecidableEq, Repr

/-- A schema path; the command grammar only stores it. -/
structure schemaPath_ where
  m_scope : Scope
  m_nodes : List dataNode_
  deriving DecidableEq, Repr

/-- The attribute of `anyPath`, `getPath` and of the path argument of `ls`. -/
inductive anyPath_ where
  | data (p : dataPath_)
  | schema (p : schemaPath_)
  | module (m : module_)
  deriving DecidableEq, Repr

/-- Source: `path_`, the type of `ParserContext::m_curPath` in `parser_context.hpp`. -/
abbrev path_ := dataPath_

/-- Source: `enum class Datastore`, the values of `datastore_symbol_table`. -/
inductive Datastore where
  | Running
  | Startup
  deriving DecidableEq, Repr

/-- Source: `enum class DatastoreTarget`, the values of `ds_target_table`. -/
inductive DatastoreTarget where
  | Operational
  | Startup
  | Running
  deriving DecidableEq, Repr

/-- Source: `enum class DataFormat`, the values of `format_table`. -/
inductive DataFormat where
  | Xml
  | Json
  deriving DecidableEq, Repr

/-- Source: `enum class LsOption`, the values of `ls_options_table`. -/
inductive LsOption where
  | Recursive
  deriving DecidableEq, Repr

namespace yang.move

/-- Source: `yang::move::Absolute`, the values of `move_absolute_table`. -/
inductive Absolute where
  | Begin
  | End
  deriving DecidableEq, Repr

/-- Source: `yang::move::Relative::Position`, the values of `move_relative_table`. -/
inductive Position where
  | Before
  | After
  deriving DecidableEq, Repr

/-- Source: `yang::move::Relative`: a position and the destination instance. -/
structure Relative where
  m_position : Position
  m_path : ListInstance
  deriving DecidableEq, Repr

end yang.move

/-- Source: `std::variant<yang::move::Absolute, yang::move::Relative>`, the type of
`move_::m_destination`. -/
inductive MoveDestination where
  | absolute (a : yang.move.Absolute)
  | relative (r : yang.move.Relative)
  deriving DecidableEq, Repr

/-- Attribute of `copy`. -/
structure copy_ where
  m_source : Datastore
  m_destination : Datastore
  deriving DecidableEq, Repr

/-- Attribute of `move`. -/
structure move_ where
  m_source : dataPath_
  m_destination : MoveDestination
  deriving DecidableEq, Repr

/-- Attribute of `dump`. -/
structure dump_ where
  m_format : DataFormat
  deriving DecidableEq, Repr

/-- Attribute of `ls`. -/
structure ls_ where
  m_options : List LsOption
  m_path : Option anyPath_
  deriving DecidableEq, Repr

/-- Attribute of `cd`. -/
structure cd_ where
  m_path : dataPath_
  deriving DecidableEq, Repr

/-- Attribute of `create`. -/
structure create_ where
  m_path : dataPath_
  deriving DecidableEq, Repr

/-- Attribute of `delete_rule`. -/
structure delete_ where
  m_path : dataPath_
  deriving DecidableEq, Repr

/-- Attribute of `set`. -/
structure set_ where
  m_path : dataPath_
  m_data : leaf_data_
  deriving DecidableEq, Repr

/-- Attribute of `get`. -/
structure get_ where
  m_dsTarget : Option DatastoreTarget
  m_path : Option anyPath_
  deriving DecidableEq, Repr

/-- Attribute of `describe`. -/
structure describe_ where
  m_path : anyPath_
  deriving DecidableEq, Repr

/-- Attribute of `help`: the verb asked about, by its display name. -/
structure help_ where
  m_cmd : Option String
  deriving DecidableEq, Repr

/-- Attribute of `prepare`. -/
structure prepare_ where
  m_path : dataPath_
  deriving DecidableEq, Repr

/-- Attribute of `exec`. -/
structure exec_ where
  m_path : Option dataPath_
  deriving DecidableEq, Repr

/-- Attribute of `switch_rule`. -/
structure switch_ where
  m_target : DatastoreTarget
  deriving DecidableEq, Repr

/-- Source: `command_`, the variant over the attributes of the eighteen verbs; `commit_`,
`discard_`, `cancel_` and `quit_` carry no data. -/
inductive command_ where
  | cd (c : cd_)
  | copy (c : copy_)
  | create (c : create_)
  | delete (c : delete_)
  | set (c : set_)
  | commit
  | get (c : get_)
  | ls (c : ls_)
  | discard
  | describe (c : describe_)
  | help (c : help_)
  | move (c : move_)
  | dump (c : dump_)
  | prepare (c : prepare_)
  | exec (c : exec_)
  | cancel
  | switch (c : switch_)
  | quit
  deriving DecidableEq, Repr

/-! ## Parser context (`parser_context.hpp`) -/

/-- A completion: the suggested text and the suffix to append. -/
structure Completion where
  m_value : String
  m_suffix : String
  deriving DecidableEq, Repr

/-- Source: `struct ParserContext`.  The first six members are those of
`parser_context.hpp`; `m_suggestions`, `m_completionIterator` and `m_tmpListPath`
are the further members `grammars.hpp` reads and writes. -/
structure ParserContext where
  m_tree : CTree
  m_curPath : path_
  m_errorMsg : String
  m_tmpListName : String
  m_tmpListKeys : Finset String
  m_errorHandled : Bool
  m_suggestions : Finset Completion
  m_completionIterator : Option Nat
  m_tmpListPath : dataPath_
  deriving DecidableEq

/-- Modelled from the spec: `ParserContext::currentDataPath()` (its definition is
absent), the current tree position as a data path. -/
def ParserContext.currentDataPath (ctx : ParserContext) : dataPath_ :=
  ctx.m_curPath

/-! ## Parse results and the Spirit X3 operators used by `grammars.hpp` -/

/-- What can leave a `parse` call other than by `return`.
`expectation_failure` is `x3::expectation_failure<It>` with its `where()` and
`which()`.  `bad_variant_access` is thrown by `std::get` on the wrong
alternative.  `undefined_behaviour` marks a run the language gives no meaning
to (`back()` or `pop_back()` on an empty vector). -/
inductive Exn where
  | expectation_failure (wher : Nat) (which : String)
  | bad_variant_access
  | undefined_behaviour
  deriving DecidableEq, Repr

/-- Outcome of a `parse` call: see the header of this file. -/
inductive PResult (α : Type) where
  | ok (attr : α) (pos : Nat) (ctx : ParserContext)
  | fail (attr : α) (pos : Nat) (ctx : ParserContext)
  | raise (e : Exn) (ctx : ParserContext)

/-- The input line. -/
abbrev Input := List Char

/-- A parser with attribute type `α`: input, iterator, context and attribute
in; outcome out. -/
abbrev Parser (α : Type) := Input → Nat → ParserContext → α → PResult α

namespace PResult

/-- The context as the call left it. -/
def ctx {α : Type} : PResult α → ParserContext
  | ok _ _ c => c
  | fail _ _ c => c
  | raise _ c => c

/-- The call returned `false` without raising. -/
def isFail {α : Type} : PResult α → Bool
  | fail _ _ _ => true
  | _ => false

/-- The call returned `true`. -/
def isOk {α : Type} : PResult α → Bool
  | ok _ _ _ => true
  | _ => false

/-- The call raised an `expectation_failure`. -/
def isExpectationFailure {α : Type} : PResult α → Bool
  | raise (.expectation_failure _ _) _ => true
  | _ => false

/-- The offset carried by a raised `expectation_failure`. -/
def wher {α : Type} : PResult α → Option Nat
  | raise (.expectation_failure w _) _ => some w
  | _ => none

end PResult

namespace x3

/-- Source: `x3::space`: `std::isspace` in the C locale. -/
def isspace (c : Char) : Bool :=
  c = ' ' || c = '\t' || c = '\n' || c = '\x0b' || c = '\x0c' || c = '\r'

/-- Number of leading whitespace characters. -/
def spaceRun : List Char → Nat
  | [] => 0
  | c :: cs => if isspace c then spaceRun cs + 1 else 0

/-- The characters of `key`, in order, are the first characters of the input: the
comparison loop of a literal and of a symbol lookup. -/
def startsWith : List Char → List Char → Bool
  | [], _ => true
  | k :: ks, input =>
    match input with
    | [] => false
    | c :: cs => k == c && startsWith ks cs

/-- Source: `x3::skip_over`, the pre-skip of the primitive parsers.  The grammar is run
under the white-space skipper `x3::space`: `copy_args` switches it off with
`x3::no_skip`, and `help_def` has no separator between the keyword and its
argument.  The iterator moves past the white space it stands on; the result is
the iterator after the skip. -/
def skip_over (input : Input) (pos : Nat) : Nat :=
  pos + spaceRun (input.drop pos)

/-- Source: `x3::eps`: skips white space, succeeds, consumes nothing else. -/
def eps {α : Type} : Parser α :=
  fun input pos ctx attr => .ok attr (skip_over input pos) ctx

/-- Source: `x3::eps[action]`: `eps` skips white space and succeeds; the semantic action
then sees `_where(ctx).begin()`, the iterator after the skip, and the parser
context. -/
def epsAction {α : Type} (action : Nat → ParserContext → ParserContext) : Parser α :=
  fun input pos ctx attr => .ok attr (skip_over input pos) (action (skip_over input pos) ctx)

/-- Source: `x3::attr(v)`: succeeds, consumes nothing, yields `v`; it does not skip. -/
def attr {α : Type} (v : α) : Parser α :=
  fun _ pos ctx _ => .ok v pos ctx

/-- A string literal used as a parser (`x3::lit`): it skips white space, then
matches its characters; it has no attribute.  On a mismatch the iterator stays
where the skip has left it. -/
def lit {α : Type} (s : String) : Parser α :=
  fun input pos ctx attr =>
    if startsWith s.toList (input.drop (skip_over input pos)) then
      .ok attr (skip_over input pos + s.length) ctx
    else .fail attr (skip_over input pos) ctx

/-- Lookup of `x3::symbols`: the longest key of the table that is a prefix of the
rest of the input, with its length. -/
def symbolsFind {β : Type} : List (String × β) → List Char → Option (Nat × β)
  | [], _ => none
  | (k, v) :: table, rest =>
    match symbolsFind table rest with
    | some (n, w) =>
      if startsWith k.toList rest && decide (n < k.length) then some (k.length, v) else some (n, w)
    | none => if startsWith k.toList rest then some (k.length, v) else none

/-- Source: `x3::symbols<β>::parse`: it skips white space, then looks the rest of the
input up; on a match the iterator is past the longest matching symbol and the
attribute is its value; otherwise the attribute is untouched and the iterator
stays where the skip has left it. -/
def symbols {β : Type} (table : List (String × β)) : Parser β :=
  fun input pos ctx attr =>
    match symbolsFind table (input.drop (skip_over input pos)) with
    | some (n, v) => .ok v (skip_over input pos + n) ctx
    | none => .fail attr (skip_over input pos) ctx

/-- A parser run on one member of the attribute. -/
def onField {α β : Type} (get : α → β) (set : α → β → α) (p : Parser β) : Parser α :=
  fun input pos ctx attr =>
    match p input pos ctx (get attr) with
    | .ok b pos1 c => .ok (set attr b) pos1 c
    | .fail b pos1 c => .fail (set attr b) pos1 c
    | .raise e c => .raise e c

/-- Source: `a >> b` (`x3::sequence`): when either side returns `false` the iterator is put
back to where the sequence started. -/
def seq {α : Type} (p q : Parser α) : Parser α :=
  fun input pos ctx attr =>
    match p input pos ctx attr with
    | .ok a1 pos1 c1 =>
      match q input pos1 c1 a1 with
      | .ok a2 pos2 c2 => .ok a2 pos2 c2
      | .fail a2 _ c2 => .fail a2 pos c2
      | .raise e c2 => .raise e c2
    | .fail a1 _ c1 => .fail a1 pos c1
    | .raise e c1 => .raise e c1

/-- Source: `x3::expect[p]` (`x3::expect_directive`): when `p` returns `false` it throws
`expectation_failure(first, what(p))`, where `first` is the iterator as `p` left
it.  `which` is `what(p)`. -/
def expect {α : Type} (which : String) (p : Parser α) : Parser α :=
  fun input pos ctx attr =>
    match p input pos ctx attr with
    | .fail _ pos1 c1 => .raise (.expectation_failure pos1 which) c1
    | r => r

/-- Source: `a > b`, that is `a >> x3::expect[b]`. -/
def seqExpect {α : Type} (p : Parser α) (which : String) (q : Parser α) : Parser α :=
  seq p (expect which q)

/-- Source: `a | b` (`x3::alternative`) on one attribute: `b` is tried when `a` returns
`false`, from the iterator as `a` left it. -/
def alt {α : Type} (p q : Parser α) : Parser α :=
  fun input pos ctx attr =>
    match p input pos ctx attr with
    | .fail a1 pos1 c1 => q input pos1 c1 a1
    | r => r

/-- One alternative of a variant attribute: the alternative is parsed into a
value-initialised attribute of its own type `β`, which is stored in the variant
only on success. -/
def variantAlt {α β : Type} (inj : β → α) (init : β) (p : Parser β) : Parser α :=
  fun input pos ctx attr =>
    match p input pos ctx init with
    | .ok b pos1 c => .ok (inj b) pos1 c
    | .fail _ pos1 c => .fail attr pos1 c
    | .raise e c => .raise e c

/-- Source: `-p` (`x3::optional`) with an `optional<β>` attribute: `p` is parsed into a
value-initialised `β`, stored on success; the optional itself always returns
`true`. -/
def optional {β : Type} (init : β) (p : Parser β) : Parser (Option β) :=
  fun input pos ctx attr =>
    match p input pos ctx init with
    | .ok b pos1 c => .ok (some b) pos1 c
    | .fail _ pos1 c => .ok attr pos1 c
    | .raise e c => .raise e c

/-- Source: `-p` (`x3::optional`) with an attribute that is not an `optional`: `p` is parsed
in place; the optional itself always returns `true`. -/
def optionalPlain {β : Type} (p : Parser β) : Parser β :=
  fun input pos ctx attr =>
    match p input pos ctx attr with
    | .fail a pos1 c => .ok a pos1 c
    | r => r

/-- Source: `*p` (`x3::kleene`) into a container: each round parses `p` into a
value-initialised element that is appended on success; the loop ends, returning
`true`, with the first round that returns `false`.  `fuel` bounds the number of
rounds. -/
def kleene {β : Type} (init : β) (p : Parser β) : Nat → Parser (List β)
  | 0 => fun _ pos ctx attr => .ok attr pos ctx
  | fuel + 1 => fun input pos ctx attr =>
    match p input pos ctx init with
    | .ok b pos1 c => kleene init p fuel input pos1 c (attr ++ [b])
    | .fail _ pos1 c => .ok attr pos1 c
    | .raise e c => .raise e c

/-- A rule (`x3::rule` with its definition): the caller's iterator moves only when
the definition returns `true`. -/
def rule {α : Type} (p : Parser α) : Parser α :=
  fun input pos ctx attr =>
    match p input pos ctx attr with
    | .fail a _ c => .fail a pos c
    | r => r

end x3

/-! ## The command grammar (`grammars.hpp`) -/

/-- Modelled from the spec: `space_separator` (common_parsers.hpp is absent): the
whitespace between a verb and its arguments, one or more whitespace
characters.  It matches the white space itself, so it runs without the
skipper. -/
def space_separator {α : Type} : Parser α :=
  fun input pos ctx attr =>
    match x3.spaceRun (input.drop pos) with
    | 0 => .fail attr pos ctx
    | n + 1 => .ok attr (pos + (n + 1)) ctx

/-- Modelled from the spec: the name of the rule `space_separator`, as `what()`
reports it in an expectation failure (common_parsers.hpp is absent).  No statement
below depends on its text. -/
def space_separator_name : String := "a space"

/-- The parsers and tables `grammars.hpp` takes from `path_parser.hpp`,
`leaf_data.hpp`, `common_parsers.hpp` and `ast_handlers.hpp`, none of which is
part of the sources.  The grammar is parametrised by them. -/
structure SubGrammars where
  cdPath : Parser dataPath_
  presenceContainerPath : Parser dataPath_
  listInstancePath : Parser dataPath_
  leafListElementPath : Parser dataPath_
  writableLeafPath : Parser dataPath_
  getPath : Parser anyPath_
  anyPath : Parser anyPath_
  module : Parser module_
  leaf_data : Parser leaf_data_
  listSuffix : Parser ListInstance
  rpcActionPathAllowInput : Parser dataPath_
  rpcActionPathNoInput : Parser dataPath_
  commandNames : List (String × String)
  onCreateCommandSuggestions : Nat → ParserContext → ParserContext

/-- Source: `staticSuggestions(strings)`: an `x3::eps` with a semantic action that replaces
the suggestions by `Completion{s, " "}` for the given strings and anchors them at
`_where(ctx).begin()`. -/
def staticSuggestions {α : Type} (strings : List String) : Parser α :=
  let completions : Finset Completion := (strings.map fun s => Completion.mk s " ").toFinset
  x3.epsAction fun wher parserContext =>
    { parserContext with m_suggestions := completions, m_completionIterator := some wher }

/-- Source: `ls_options_table`. -/
def ls_options : List (String × LsOption) :=
  [("--recursive", LsOption.Recursive)]

/-- Source: `ds_target_table`. -/
def ds_target_table : List (String × DatastoreTarget) :=
  [("operational", DatastoreTarget.Operational),
   ("startup", DatastoreTarget.Startup),
   ("running", DatastoreTarget.Running)]

/-- Source: `datastore_symbol_table`. -/
def datastore : List (String × Datastore) :=
  [("running", Datastore.Running),
   ("startup", Datastore.Startup)]

/-- Source: `move_absolute_table`. -/
def move_absolute_table : List (String × yang.move.Absolute) :=
  [("begin", yang.move.Absolute.Begin),
   ("end", yang.move.Absolute.End)]

/-- Source: `move_relative_table`. -/
def move_relative_table : List (String × yang.move.Position) :=
  [("before", yang.move.Position.Before),
   ("after", yang.move.Position.After)]

/-- Source: `format_table`. -/
def format_table : List (String × DataFormat) :=
  [("xml", DataFormat.Xml),
   ("json", DataFormat.Json)]

/-- Source: `dsTargetSuggestions`. -/
def dsTargetSuggestions {α : Type} : Parser α :=
  staticSuggestions ["running", "startup", "operational"]

/-- Source: `datastoreSuggestions`. -/
def datastoreSuggestions {α : Type} : Parser α :=
  staticSuggestions ["running", "startup"]

/-- Source: `copy_source`, the rule named "source datastore". -/
def copy_source : Parser Datastore :=
  x3.rule (x3.symbols datastore)

/-- Source: `copy_destination`, the rule named "destination datastore". -/
def copy_destination : Parser Datastore :=
  x3.rule (x3.symbols datastore)

/-! ### Verb keywords and value-initialised attributes

The `name` members and the attribute structs come from `ast_commands.hpp`, which
is not part of the sources; the keywords are those of the command surface.  A
value-initialised enumeration is its first enumerator, a value-initialised
container is empty. -/

/-- Modelled from the spec: the keyword of `ls` (`ast_commands.hpp` is absent). -/
def ls_.name : String := "ls"
/-- Modelled from the spec: the keyword of `cd` (`ast_commands.hpp` is absent). -/
def cd_.name : String := "cd"
/-- Modelled from the spec: the keyword of `create` (`ast_commands.hpp` is absent). -/
def create_.name : String := "create"
/-- Modelled from the spec: the keyword of `delete` (`ast_commands.hpp` is absent). -/
def delete_.name : String := "delete"
/-- Modelled from the spec: the keyword of `get` (`ast_commands.hpp` is absent). -/
def get_.name : String := "get"
/-- Modelled from the spec: the keyword of `set` (`ast_commands.hpp` is absent). -/
def set_.name : String := "set"
/-- Modelled from the spec: the keyword of `commit` (`ast_commands.hpp` is absent). -/
def commit_.name : String := "commit"
/-- Modelled from the spec: the keyword of `discard` (`ast_commands.hpp` is absent). -/
def discard_.name : String := "discard"
/-- Modelled from the spec: the keyword of `help` (`ast_commands.hpp` is absent). -/
def help_.name : String := "help"
/-- Modelled from the spec: the keyword of `copy` (`ast_commands.hpp` is absent). -/
def copy_.name : String := "copy"
/-- Modelled from the spec: the keyword of `describe` (`ast_commands.hpp` is absent). -/
def describe_.name : String := "describe"
/-- Modelled from the spec: the keyword of `move` (`ast_commands.hpp` is absent). -/
def move_.name : String := "move"
/-- Modelled from the spec: the keyword of `dump` (`ast_commands.hpp` is absent). -/
def dump_.name : String := "dump"
/-- Modelled from the spec: the keyword of `prepare` (`ast_commands.hpp` is absent). -/
def prepare_.name : String := "prepare"
/-- Modelled from the spec: the keyword of `exec` (`ast_commands.hpp` is absent). -/
def exec_.name : String := "exec"
/-- Modelled from the spec: the keyword of `switch` (`ast_commands.hpp` is absent). -/
def switch_.name : String := "switch"
/-- Modelled from the spec: the keyword of `cancel` (`ast_commands.hpp` is absent). -/
def cancel_.name : String := "cancel"
/-- Modelled from the spec: the keyword of `quit` (`ast_commands.hpp` is absent). -/
def quit_.name : String := "quit"

/-- Value-initialised `dataPath_`. -/
def dataPath_.init : dataPath_ := ⟨Scope.Absolute, []⟩
/-- Value-initialised path variant. -/
def anyPath_.init : anyPath_ := .data dataPath_.init
/-- Value-initialised `module_`. -/
def module_.init : module_ := ⟨""⟩
/-- Source: `yang::move::Relative{}`. -/
def yang.move.Relative.init : yang.move.Relative := ⟨.Before, []⟩
/-- Value-initialised `copy_`. -/
def copy_.init : copy_ := ⟨.Running, .Running⟩
/-- Value-initialised `move_`. -/
def move_.init : move_ := ⟨dataPath_.init, .absolute .Begin⟩
/-- Value-initialised `dump_`. -/
def dump_.init : dump_ := ⟨.Xml⟩
/-- Value-initialised `ls_`. -/
def ls_.init : ls_ := ⟨[], none⟩
/-- Value-initialised `cd_`. -/
def cd_.init : cd_ := ⟨dataPath_.init⟩
/-- Value-initialised `create_`. -/
def create_.init : create_ := ⟨dataPath_.init⟩
/-- Value-initialised `delete_`. -/
def delete_.init : delete_ := ⟨dataPath_.init⟩
/-- Value-initialised `set_`. -/
def set_.init : set_ := ⟨dataPath_.init, ""⟩
/-- Value-initialised `get_`. -/
def get_.init : get_ := ⟨none, none⟩
/-- Value-initialised `describe_`. -/
def describe_.init : describe_ := ⟨anyPath_.init⟩
/-- Value-initialised `help_`. -/
def help_.init : help_ := ⟨none⟩
/-- Value-initialised `prepare_`. -/
def prepare_.init : prepare_ := ⟨dataPath_.init⟩
/-- Value-initialised `exec_`. -/
def exec_.init : exec_ := ⟨none⟩
/-- Value-initialised `switch_`. -/
def switch_.init : switch_ := ⟨.Operational⟩

/-! ### The custom parsers -/

/-- The local `grammar` of `copy_args::parse`:
`datastoreSuggestions > copy_source > space_separator > datastoreSuggestions > save_iter > copy_destination`.
Its state is the attribute together with the local `iterBeforeDestination`, which
`save_iter` overwrites with the current iterator; `save_iter` is an `x3::eps`
under `x3::no_skip`, so it does not skip. -/
def copy_args.grammar : Parser (copy_ × Nat) :=
  let save_iter : Parser (copy_ × Nat) := fun _ pos ctx st => .ok (st.1, pos) pos ctx
  x3.seqExpect
    (x3.seqExpect
      (x3.seqExpect
        (x3.seqExpect
          (x3.seqExpect datastoreSuggestions
            "source datastore"
            (x3.onField (fun st => st.1.m_source) (fun st s => ({ st.1 with m_source := s }, st.2))
              copy_source))
          space_separator_name space_separator)
        "datastoreSuggestions" datastoreSuggestions)
      "save_iter" save_iter)
    "destination datastore"
    (x3.onField (fun st => st.1.m_destination)
      (fun st d => ({ st.1 with m_destination := d }, st.2)) copy_destination)

/-- Source: `copy_args::parse`.  The result of `grammar.parse` is discarded; an
`expectation_failure` leaving it is caught, the error message is set from its
`which()`, and it is thrown again.  Afterwards equal source and destination make
the parser return `false` with the iterator put back to `iterBeforeDestination`. -/
def copy_args : Parser copy_ :=
  fun input begin parserContext attr =>
    let iterBeforeDestination := begin
    match copy_args.grammar input begin parserContext (attr, iterBeforeDestination) with
    | .raise (.expectation_failure wher which) c =>
      .raise (.expectation_failure wher which)
        { c with m_errorMsg := "Expected " ++ which ++ " here:" }
    | .raise e c => .raise e c
    | .ok st pos c =>
      if st.1.m_source = st.1.m_destination then
        .fail st.1 st.2
          { c with m_errorMsg := "Source datastore and destination datastore can't be the same." }
      else .ok st.1 pos c
    | .fail st pos c =>
      if st.1.m_source = st.1.m_destination then
        .fail st.1 st.2
          { c with m_errorMsg := "Source datastore and destination datastore can't be the same." }
      else .ok st.1 pos c

/-- Source: `copy_def = copy_::name > space_separator > copy_args`. -/
def copy_def : Parser copy_ :=
  x3.seqExpect (x3.seqExpect (x3.lit copy_.name) space_separator_name space_separator)
    "copy_args" copy_args

/-- The second half of `move_args::parse`, reached when the relative position
keyword has parsed: the destination of a relative move. -/
def move_args.destination (G : SubGrammars) (position : yang.move.Position) : Parser move_ :=
  fun input begin c attr =>
    match attr.m_source.m_nodes.getLast? with
    | none => .raise .undefined_behaviour c
    | some last =>
      match last.m_suffix with
      | .leafListElement_ _ _ =>
        match x3.seq space_separator G.leaf_data input begin c "" with
        | .ok value pos1 c1 =>
          .ok { attr with m_destination := .relative ⟨position, [(".", value)]⟩ } pos1 c1
        | .fail _ pos1 c1 => .fail attr pos1 { c1 with m_errorMsg := "Expected a destination here:" }
        | .raise e c1 => .raise e c1
      | suffix =>
        let c1 := { c with m_tmpListPath := c.currentDataPath }
        match c1.m_tmpListPath.m_nodes with
        | [] => .raise .undefined_behaviour c1
        | n :: ns =>
          let c2 := { c1 with m_tmpListPath := { c1.m_tmpListPath with m_nodes := (n :: ns).dropLast } }
          match suffix with
          | .listElement_ m_name _ =>
            let list := dataSuffix.list_ m_name
            let c3 := { c2 with m_tmpListPath :=
              { c2.m_tmpListPath with
                m_nodes := c2.m_tmpListPath.m_nodes ++ [dataNode_.mk (dataNode_.m_prefix last) list] } }
            match x3.seq space_separator G.listSuffix input begin c3 [] with
            | .ok listInstance pos1 c4 =>
              .ok { attr with m_destination := .relative ⟨position, listInstance⟩ } pos1 c4
            | .fail _ pos1 c4 =>
              .fail attr pos1 { c4 with m_errorMsg := "Expected a destination here:" }
            | .raise e c4 => .raise e c4
          | _ => .raise .bad_variant_access c2

/-- Source: `move_args::parse`: the source path, then an absolute position, and only if
that returns `false` a relative position followed by its destination. -/
def move_args (G : SubGrammars) : Parser move_ :=
  fun input begin parserContext attr =>
    let movePathGrammar := x3.alt G.listInstancePath G.leafListElementPath
    match x3.onField move_.m_source (fun a s => { a with m_source := s }) movePathGrammar
        input begin parserContext attr with
    | .raise e c => .raise e c
    | .fail a pos c => .fail a pos { c with m_errorMsg := "Expected source path here:" }
    | .ok a1 pos1 c1 =>
      match x3.seq space_separator
          (x3.onField move_.m_destination (fun a d => { a with m_destination := d })
            (x3.variantAlt MoveDestination.absolute yang.move.Absolute.Begin
              (x3.symbols move_absolute_table))) input pos1 c1 a1 with
      | .ok a2 pos2 c2 => .ok a2 pos2 c2
      | .raise e c2 => .raise e c2
      | .fail a2 pos2 c2 =>
        let a3 := { a2 with m_destination := .relative yang.move.Relative.init }
        match x3.seq space_separator (x3.symbols move_relative_table) input pos2 c2
            yang.move.Relative.init.m_position with
        | .raise e c3 => .raise e c3
        | .fail position pos3 c3 =>
          .fail { a3 with m_destination := .relative ⟨position, []⟩ } pos3
            { c3 with m_errorMsg := "Expected a move position (begin, end, before, after) here:" }
        | .ok position pos3 c3 =>
          move_args.destination G position input pos3 c3
            { a3 with m_destination := .relative ⟨position, []⟩ }

/-- Source: `move_def = move_::name >> space_separator >> move_args`. -/
def move_def (G : SubGrammars) : Parser move_ :=
  x3.seq (x3.seq (x3.lit move_.name) space_separator) (move_args G)

/-- Source: `dump_args::parse`: the suggestions and their anchor are set first, whatever
follows; an input that is not in `format_table` sets the error message and
returns `false`. -/
def dump_args : Parser dump_ :=
  fun input begin parserContext attr =>
    let c1 := { parserContext with
      m_suggestions := {Completion.mk "xml" "", Completion.mk "json" ""},
      m_completionIterator := some begin }
    match x3.onField dump_.m_format (fun _ f => dump_.mk f) (x3.symbols format_table)
        input begin c1 attr with
    | .fail a pos c =>
      .fail a pos { c with m_errorMsg := "Expected a data format (xml, json) here:" }
    | r => r

/-- Source: `dump_def = dump_::name > space_separator >> dump_args`.  In C++ `>>` binds
tighter than `>`, so this is `dump_::name > (space_separator >> dump_args)`. -/
def dump_def : Parser dump_ :=
  x3.seqExpect (x3.lit dump_.name) "space_separator >> dump_args"
    (x3.seq space_separator dump_args)

/-! ### The verb rules

Where `grammars.hpp` gives two definitions under `#if BOOST_VERSION`, the one for
the current Boost is embedded; the other differs by a leading `x3::eps`. -/

/-- Source: `createCommandSuggestions_def = x3::eps`. -/
def createCommandSuggestions_def {α : Type} : Parser α :=
  x3.eps

/-- The rule `createCommandSuggestions`: its definition, followed on success by the
handler of its class, which sees the iterator at which the rule started, after
the pre-skip. -/
def createCommandSuggestions (G : SubGrammars) {α : Type} : Parser α :=
  fun input pos ctx attr =>
    match x3.rule createCommandSuggestions_def input pos ctx attr with
    | .ok a pos1 c => .ok a pos1 (G.onCreateCommandSuggestions (x3.skip_over input pos) c)
    | r => r

/-- Source: `ls_def = ls_::name >> *(space_separator >> ls_options)
>> -(space_separator >> (anyPath | (module >> "*")))`.  Every round of the
loop consumes a character, so the length of the input bounds the rounds. -/
def ls_def (G : SubGrammars) : Parser ls_ :=
  x3.seq
    (x3.seq (x3.lit ls_.name)
      (x3.onField ls_.m_options (fun a o => { a with m_options := o })
        (fun input => x3.kleene LsOption.Recursive
          (x3.seq space_separator (x3.symbols ls_options)) (input.length + 1) input)))
    (x3.onField ls_.m_path (fun a p => { a with m_path := p })
      (x3.optional anyPath_.init
        (x3.seq space_separator
          (x3.alt (x3.variantAlt id anyPath_.init G.anyPath)
            (x3.variantAlt anyPath_.module module_.init (x3.seq G.module (x3.lit "*")))))))

/-- Source: `cd_def = cd_::name >> space_separator > cdPath`. -/
def cd_def (G : SubGrammars) : Parser cd_ :=
  x3.seqExpect (x3.seq (x3.lit cd_.name) space_separator) "cdPath"
    (x3.onField cd_.m_path (fun _ p => cd_.mk p) G.cdPath)

/-- Source: `create_def = create_::name >> space_separator >
(presenceContainerPath | listInstancePath | leafListElementPath)`. -/
def create_def (G : SubGrammars) : Parser create_ :=
  x3.seqExpect (x3.seq (x3.lit create_.name) space_separator)
    "presenceContainerPath | listInstancePath | leafListElementPath"
    (x3.onField create_.m_path (fun _ p => create_.mk p)
      (x3.alt (x3.alt G.presenceContainerPath G.listInstancePath) G.leafListElementPath))

/-- Source: `delete_rule_def = delete_::name >> space_separator >
(presenceContainerPath | listInstancePath | leafListElementPath | writableLeafPath)`. -/
def delete_rule_def (G : SubGrammars) : Parser delete_ :=
  x3.seqExpect (x3.seq (x3.lit delete_.name) space_separator)
    "presenceContainerPath | listInstancePath | leafListElementPath | writableLeafPath"
    (x3.onField delete_.m_path (fun _ p => delete_.mk p)
      (x3.alt (x3.alt (x3.alt G.presenceContainerPath G.listInstancePath) G.leafListElementPath)
        G.writableLeafPath))

/-- The flag of `get_def`:
`space_separator >> "-" > staticSuggestions({"-datastore"}) > "-datastore"
> space_separator > dsTargetSuggestions > ds_target_table`. -/
def get_def.datastoreFlag : Parser DatastoreTarget :=
  x3.seqExpect
    (x3.seqExpect
      (x3.seqExpect
        (x3.seqExpect
          (x3.seqExpect (x3.seq space_separator (x3.lit "-"))
            "staticSuggestions" (staticSuggestions ["-datastore"]))
          "\"-datastore\"" (x3.lit "-datastore"))
        space_separator_name space_separator)
      "dsTargetSuggestions" dsTargetSuggestions)
    "symbols" (x3.symbols ds_target_table)

/-- Source: `get_def = get_::name >> -(datastore flag) >> -(space_separator >> getPath)`. -/
def get_def (G : SubGrammars) : Parser get_ :=
  x3.seq
    (x3.seq (x3.lit get_.name)
      (x3.onField get_.m_dsTarget (fun a t => { a with m_dsTarget := t })
        (x3.optional DatastoreTarget.Operational get_def.datastoreFlag)))
    (x3.onField get_.m_path (fun a p => { a with m_path := p })
      (x3.optional anyPath_.init (x3.seq space_separator G.getPath)))

/-- Source: `set_def = set_::name >> space_separator > writableLeafPath > space_separator
> leaf_data`. -/
def set_def (G : SubGrammars) : Parser set_ :=
  x3.seqExpect
    (x3.seqExpect
      (x3.seqExpect (x3.seq (x3.lit set_.name) space_separator) "writableLeafPath"
        (x3.onField set_.m_path (fun a p => { a with m_path := p }) G.writableLeafPath))
      space_separator_name space_separator)
    "leaf_data" (x3.onField set_.m_data (fun a d => { a with m_data := d }) G.leaf_data)

/-- Source: `commit_def = commit_::name >> x3::attr(commit_())`. -/
def commit_def : Parser Unit :=
  x3.seq (x3.lit commit_.name) (x3.attr ())

/-- Source: `discard_def = discard_::name >> x3::attr(discard_())`. -/
def discard_def : Parser Unit :=
  x3.seq (x3.lit discard_.name) (x3.attr ())

/-- Source: `help_def = help_::name > createCommandSuggestions >> -command_names`, that is
`help_::name > (createCommandSuggestions >> -command_names)`. -/
def help_def (G : SubGrammars) : Parser help_ :=
  x3.seqExpect (x3.lit help_.name) "createCommandSuggestions >> -command_names"
    (x3.seq (createCommandSuggestions G)
      (x3.onField help_.m_cmd (fun _ c => help_.mk c) (x3.optional "" (x3.symbols G.commandNames))))

/-- Source: `describe_def = describe_::name >> space_separator > anyPath`. -/
def describe_def (G : SubGrammars) : Parser describe_ :=
  x3.seqExpect (x3.seq (x3.lit describe_.name) space_separator) "anyPath"
    (x3.onField describe_.m_path (fun _ p => describe_.mk p) G.anyPath)

/-- Source: `prepare_def = prepare_::name > space_separator
> as<dataPath_>[RpcActionPath<AllowInput::Yes>{}]`. -/
def prepare_def (G : SubGrammars) : Parser prepare_ :=
  x3.seqExpect (x3.seqExpect (x3.lit prepare_.name) space_separator_name space_separator) "as"
    (x3.onField prepare_.m_path (fun _ p => prepare_.mk p) (x3.rule G.rpcActionPathAllowInput))

/-- Source: `exec_def = exec_::name
> -(space_separator > -as<dataPath_>[RpcActionPath<AllowInput::No>{}])`. -/
def exec_def (G : SubGrammars) : Parser exec_ :=
  x3.seqExpect (x3.lit exec_.name) "optional"
    (x3.onField exec_.m_path (fun _ p => exec_.mk p)
      (x3.optional dataPath_.init
        (x3.seqExpect space_separator "optional"
          (x3.optionalPlain (x3.rule G.rpcActionPathNoInput)))))

/-- Source: `switch_rule_def = switch_::name > space_separator > dsTargetSuggestions
> ds_target_table`. -/
def switch_rule_def : Parser switch_ :=
  x3.seqExpect
    (x3.seqExpect (x3.seqExpect (x3.lit switch_.name) space_separator_name space_separator)
      "dsTargetSuggestions" dsTargetSuggestions)
    "symbols" (x3.onField switch_.m_target (fun _ t => switch_.mk t) (x3.symbols ds_target_table))

/-- Source: `cancel_def = cancel_::name >> x3::attr(cancel_{})`. -/
def cancel_def : Parser Unit :=
  x3.seq (x3.lit cancel_.name) (x3.attr ())

/-- Source: `quit_def = quit_::name >> x3::attr(quit_{})`. -/
def quit_def : Parser Unit :=
  x3.seq (x3.lit quit_.name) (x3.attr ())

/-- The alternative of `command_def`:
`cd | copy | create | delete_rule | set | commit | get | ls | discard | describe
| help | move | dump | prepare | exec | cancel | switch_rule | quit`.
Each verb is a rule whose attribute is one alternative of `command_`. -/
def command_def.verbs (G : SubGrammars) : List (Parser command_) :=
  [x3.variantAlt command_.cd cd_.init (x3.rule (cd_def G)),
   x3.variantAlt command_.copy copy_.init (x3.rule copy_def),
   x3.variantAlt command_.create create_.init (x3.rule (create_def G)),
   x3.variantAlt command_.delete delete_.init (x3.rule (delete_rule_def G)),
   x3.variantAlt command_.set set_.init (x3.rule (set_def G)),
   x3.variantAlt (fun _ => command_.commit) () (x3.rule commit_def),
   x3.variantAlt command_.get get_.init (x3.rule (get_def G)),
   x3.variantAlt command_.ls ls_.init (x3.rule (ls_def G)),
   x3.variantAlt (fun _ => command_.discard) () (x3.rule discard_def),
   x3.variantAlt command_.describe describe_.init (x3.rule (describe_def G)),
   x3.variantAlt command_.help help_.init (x3.rule (help_def G)),
   x3.variantAlt command_.move move_.init (x3.rule (move_def G)),
   x3.variantAlt command_.dump dump_.init (x3.rule dump_def),
   x3.variantAlt command_.prepare prepare_.init (x3.rule (prepare_def G)),
   x3.variantAlt command_.exec exec_.init (x3.rule (exec_def G)),
   x3.variantAlt (fun _ => command_.cancel) () (x3.rule cancel_def),
   x3.variantAlt command_.switch switch_.init (x3.rule switch_rule_def),
   x3.variantAlt (fun _ => command_.quit) () (x3.rule quit_def)]

/-- The operator `|` over a list of alternatives, tried from the left; each one
starts where the one before it left the iterator. -/
def x3.alternatives {α : Type} : List (Parser α) → Parser α
  | [] => fun _ pos ctx attr => .fail attr pos ctx
  | [p] => p
  | p :: q :: ps => x3.alt p (x3.alternatives (q :: ps))

/-- Source: `command_def = createCommandSuggestions >> x3::expect[cd | copy | ... | quit]`. -/
def command_def (G : SubGrammars) : Parser command_ :=
  x3.seq (createCommandSuggestions G)
    (x3.expect "alternative" (x3.alternatives (command_def.verbs G)))

/-- The rule `command`. -/
def command (G : SubGrammars) : Parser command_ :=
  x3.rule (command_def G)

/-- A set of sub-grammars that accept nothing: what the path parsers do over a
schema without nodes. -/
def SubGrammars.none : SubGrammars where
  cdPath := fun _ pos ctx attr => .fail attr pos ctx
  presenceContainerPath := fun _ pos ctx attr => .fail attr pos ctx
  listInstancePath := fun _ pos ctx attr => .fail attr pos ctx
  leafListElementPath := fun _ pos ctx attr => .fail attr pos ctx
  writableLeafPath := fun _ pos ctx attr => .fail attr pos ctx
  getPath := fun _ pos ctx attr => .fail attr pos ctx
  anyPath := fun _ pos ctx attr => .fail attr pos ctx
  module := fun _ pos ctx attr => .fail attr pos ctx
  leaf_data := fun _ pos ctx attr => .fail attr pos ctx
  listSuffix := fun _ pos ctx attr => .fail attr pos ctx
  rpcActionPathAllowInput := fun _ pos ctx attr => .fail attr pos ctx
  rpcActionPathNoInput := fun _ pos ctx attr => .fail attr pos ctx
  commandNames := []
  onCreateCommandSuggestions := fun _ ctx => ctx

/-- A fresh parser context over the empty schema tree, at the root. -/
def ParserContext.fresh : ParserContext where
  m_tree := CTree.empty
  m_curPath := dataPath_.init
  m_errorMsg := ""
  m_tmpListName := ""
  m_tmpListKeys := ∅
  m_errorHandled := false
  m_suggestions := ∅
  m_completionIterator := none
  m_tmpListPath := dataPath_.init

/-! ### A sample schema for concrete runs -/

/-- The data path `/mod:cont`. -/
def sampleContainerPath : dataPath_ :=
  ⟨Scope.Absolute, [dataNode_.mk (some ⟨"mod"⟩) (dataSuffix.container_ "cont")]⟩

/-- The data path `/mod:cont/protocols[name="ftp"]`, ending in a list instance. -/
def sampleListInstancePath : dataPath_ :=
  ⟨Scope.Absolute,
    [dataNode_.mk (some ⟨"mod"⟩) (dataSuffix.container_ "cont"),
     dataNode_.mk none (dataSuffix.listElement_ "protocols" [("name", "ftp")])]⟩

/-- The data path `/mod:addresses[.="0.0.0.0"]`, ending in a leaf-list element. -/
def sampleLeafListElementPath : dataPath_ :=
  ⟨Scope.Absolute,
    [dataNode_.mk (some ⟨"mod"⟩) (dataSuffix.leafListElement_ "addresses" "0.0.0.0")]⟩

/-- A path parser that accepts exactly one path text: on a match it yields the
path and leaves it as the current path of the context, as the path parsers do;
otherwise it returns `false` and changes nothing. -/
def samplePathParser {α : Type} (text : String) (path : dataPath_) (value : α) : Parser α :=
  fun input pos ctx attr =>
    if x3.startsWith text.toList (input.drop pos) then
      .ok value (pos + text.length) { ctx with m_curPath := path }
    else .fail attr pos ctx

/-- Sub-grammars for a schema with the container `cont` of module `mod` at the
root, the list `protocols` keyed by `name` under it with the instance `ftp`, and
the leaf-list `addresses` of module `mod`. -/
def SubGrammars.sample : SubGrammars :=
  { SubGrammars.none with
    listInstancePath :=
      samplePathParser "/mod:cont/protocols[name=\"ftp\"]" sampleListInstancePath
        sampleListInstancePath
    leafListElementPath :=
      samplePathParser "/mod:addresses[.=\"0.0.0.0\"]" sampleLeafListElementPath
        sampleLeafListElementPath
    getPath := samplePathParser "/mod:cont" sampleContainerPath (anyPath_.data sampleContainerPath)
    anyPath := samplePathParser "/mod:cont" sampleContainerPath (anyPath_.data sampleContainerPath) }

/-! ### Keyword tests used in the statements -/

/-- A parser that never returns `false`: on every input it returns `true` or an
exception leaves it. -/
def x3.NoSoftFail {α : Type} (p : Parser α) : Prop :=
  ∀ (input : Input) (pos : Nat) (ctx : ParserContext) (attr : α),
    (p input pos ctx attr).isFail = false

/-- The context after the datastore flag of `get` has parsed: the suggestions are
those of `dsTargetSuggestions`, anchored where the target starts. -/
def get_def.contextAfterFlag (ctx : ParserContext) (anchor : Nat) : ParserContext :=
  { ctx with
    m_suggestions :=
      (["running", "startup", "operational"].map fun s => Completion.mk s " ").toFinset
    m_completionIterator := some anchor }

/-! ### The eighteen verbs, for statements that range over them -/

/-- The verbs of `command_def`, in the order of its alternative. -/
inductive Verb where
  | cd | copy | create | delete | set | commit | get | ls | discard | describe | help | move
  | dump | prepare | exec | cancel | switch | quit
  deriving DecidableEq, Repr

/-- The keyword of a verb. -/
def Verb.name : Verb → String
  | .cd => cd_.name
  | .copy => copy_.name
  | .create => create_.name
  | .delete => delete_.name
  | .set => set_.name
  | .commit => commit_.name
  | .get => get_.name
  | .ls => ls_.name
  | .discard => discard_.name
  | .describe => describe_.name
  | .help => help_.name
  | .move => move_.name
  | .dump => dump_.name
  | .prepare => prepare_.name
  | .exec => exec_.name
  | .cancel => cancel_.name
  | .switch => switch_.name
  | .quit => quit_.name

/-- Source: `std::shared_ptr<DatastoreAccess>`, by the identity of the datastore it
points to. -/
abbrev DatastoreHandle := Nat

/-- Source: `std::variant<ActionInput, RpcInput>`, the type of `m_inputPath`; both
alternatives are a struct with the one member `m_path`. -/
inductive InputPath where
  | ActionInput (m_path : String)
  | RpcInput (m_path : String)
  deriving DecidableEq, Repr

/-- The member `m_path` of whichever alternative is held. -/
def InputPath.m_path : InputPath → String
  | .ActionInput m_path => m_path
  | .RpcInput m_path => m_path

/-- Source: `class ProxyDatastore`, its four data members.  `m_inputDatastore` is
null when no input is being composed. -/
structure ProxyDatastore where
  m_datastore : DatastoreHandle
  m_createTemporaryDatastore : DatastoreHandle → DatastoreHandle
  m_inputDatastore : Option DatastoreHandle
  m_inputPath : InputPath

/-- The session state of the specification:
`Idle | ComposingRpcInput{path} | ComposingActionInput{path}`. -/
inductive SessionState where
  | Idle
  | ComposingRpcInput (path : String)
  | ComposingActionInput (path : String)
  deriving DecidableEq, Repr

/-- The failure of `initiateRpc` and `initiateAction` while an input is being
composed. -/
inductive ProxyError where
  | alreadyComposing
  deriving DecidableEq, Repr

namespace ProxyDatastore

/-- The session state the data members stand for: `Idle` when there is no temporary
input datastore, otherwise composing the input of the RPC or action held in
`m_inputPath`. -/
def state (p : ProxyDatastore) : SessionState :=
  match p.m_inputDatastore with
  | none => .Idle
  | some _ =>
    match p.m_inputPath with
    | .RpcInput path => .ComposingRpcInput path
    | .ActionInput path => .ComposingActionInput path

/-- Modelled from the spec: `path` is nested under `base` (proxy_datastore.cpp is
absent): it is `base` followed by a path separator and further segments. -/
def nestedUnder (base path : String) : Bool :=
  (base ++ "/").toList.isPrefixOf path.toList && decide ((base ++ "/").length < path.length)

/-- Modelled from the spec: `ProxyDatastore::pickDatastore` (proxy_datastore.cpp is
absent).  While composing, a path equal to or nested under the composing RPC or
action path is routed to the temporary input handle; every other path, and every
path when idle, is routed to the main handle. -/
def pickDatastore (p : ProxyDatastore) (path : String) : DatastoreHandle :=
  match p.m_inputDatastore with
  | none => p.m_datastore
  | some input =>
    if path = p.m_inputPath.m_path || nestedUnder p.m_inputPath.m_path path then input
    else p.m_datastore

/-- Modelled from the spec: `ProxyDatastore::initiateRpc` (proxy_datastore.cpp is
absent).  It fails if an input is already being composed, leaving the proxy as
it was; otherwise it creates the temporary input datastore with the injected
factory and the state becomes `ComposingRpcInput{rpcPath}`.  The result is the
outcome of the call together with the proxy after it. -/
def initiateRpc (p : ProxyDatastore) (rpcPath : String) :
    Except ProxyError Unit × ProxyDatastore :=
  match p.m_inputDatastore with
  | some _ => (.error .alreadyComposing, p)
  | none =>
    (.ok (),
      { p with
        m_inputDatastore := some (p.m_createTemporaryDatastore p.m_datastore)
        m_inputPath := .RpcInput rpcPath })

/-- Modelled from the spec: `ProxyDatastore::initiateAction` (proxy_datastore.cpp is
absent): the same as `initiateRpc`, the state becoming
`ComposingActionInput{actionPath}`. -/
def initiateAction (p : ProxyDatastore) (actionPath : String) :
    Except ProxyError Unit × ProxyDatastore :=
  match p.m_inputDatastore with
  | some _ => (.error .alreadyComposing, p)
  | none =>
    (.ok (),
      { p with
        m_inputDatastore := some (p.m_createTemporaryDatastore p.m_datastore)
        m_inputPath := .ActionInput actionPath })

/-- Modelled from the spec: `ProxyDatastore::cancel` (proxy_datastore.cpp is absent):
it discards the temporary input datastore and returns to `Idle` unconditionally.
The result is the outcome of the call together with the proxy after it. -/
def cancel (p : ProxyDatastore) : Except ProxyError Unit × ProxyDatastore :=
  (.ok (), { p with m_inputDatastore := none })

end ProxyDatastore

/-- A proxy over the main datastore 0 that is composing the input of the RPC
`/mod:rpc` in the temporary datastore 1. -/
def ProxyDatastore.sample : ProxyDatastore where
  m_datastore := 0
  m_createTemporaryDatastore := fun _ => 1
  m_inputDatastore := some 1
  m_inputPath := .RpcInput "/mod:rpc"

/-! ### The position keyword of `move`, for statements about its stages -/

/-- The keyword of `table` that follows the whitespace at `pos`, with the position
past it: what `space_separator >> table` matches.  `none` when no whitespace is
at `pos` or no symbol of the table follows it. -/
def move_args.keywordAfter {β : Type} (table : List (String × β)) (input : Input) (pos : Nat) :
    Option (Nat × β) :=
  match x3.spaceRun (input.drop pos) with
  | 0 => none
  | k + 1 =>
    match x3.symbolsFind table (input.drop (pos + (k + 1))) with
    | none => none
    | some (n, v) => some (pos + (k + 1) + n, v)

/-- The scratch list path `move_args` stores in the context before it parses the
keys of the destination: the current data path with its last segment replaced by
the key-less list segment of the source's last segment `last`, a list instance
of the list `name`. -/
def move_args.scratchListPath (c : ParserContext) (last : dataNode_) (name : String) :
    dataPath_ :=
  ⟨c.currentDataPath.m_scope,
    c.currentDataPath.m_nodes.dropLast
      ++ [dataNode_.mk (dataNode_.m_prefix last) (dataSuffix.list_ name)]⟩

/-! ## Lemmas on the operators -/

theorem x3.spaceRun_append (ws tail : List Char) (hws : ∀ c ∈ ws, x3.isspace c = true)
    (htail : x3.spaceRun tail = 0) : x3.spaceRun (ws ++ tail) = ws.length := by
  induction ws with
  | nil => simpa using htail
  | cons c cs ih =>
    have hc : x3.isspace c = true := hws c (List.mem_cons_self _ _)
    have hcs : ∀ d ∈ cs, x3.isspace d = true := fun d hd => hws d (List.mem_cons_of_mem _ hd)
    simp [x3.spaceRun, hc, ih hcs]

theorem x3.spaceRun_drop_spaceRun (l : List Char) : x3.spaceRun (l.drop (x3.spaceRun l)) = 0 := by
  induction l with
  | nil => rfl
  | cons c cs ih =>
    cases hc : x3.isspace c with
    | true =>
      have h : x3.spaceRun (c :: cs) = x3.spaceRun cs + 1 := by simp [x3.spaceRun, hc]
      rw [h, List.drop_succ_cons]
      exact ih
    | false =>
      have h : x3.spaceRun (c :: cs) = 0 := by simp [x3.spaceRun, hc]
      rw [h, List.drop_zero]
      exact h

theorem x3.skip_over_of_spaceRun (input : Input) (pos : Nat)
    (h : x3.spaceRun (input.drop pos) = 0) : x3.skip_over input pos = pos := by
  simp only [x3.skip_over, h, Nat.add_zero]

theorem x3.spaceRun_skip_over (input : Input) (pos : Nat) :
    x3.spaceRun (input.drop (x3.skip_over input pos)) = 0 := by
  unfold x3.skip_over
  rw [← List.drop_drop]
  exact x3.spaceRun_drop_spaceRun _

theorem x3.skip_over_skip_over (input : Input) (pos : Nat) :
    x3.skip_over input (x3.skip_over input pos) = x3.skip_over input pos :=
  x3.skip_over_of_spaceRun input _ (x3.spaceRun_skip_over input pos)

theorem x3.skip_over_past_space (input : Input) (pos k : Nat)
    (h : x3.spaceRun (input.drop pos) = k) : x3.skip_over input (pos + k) = pos + k := by
  have := x3.spaceRun_skip_over input pos
  unfold x3.skip_over at this
  rw [h] at this
  exact x3.skip_over_of_spaceRun input _ this

theorem x3.skip_over_of_drop (input : Input) (pos : Nat) (tail : List Char)
    (hin : input.drop pos = tail) (htail : x3.spaceRun tail = 0) :
    x3.skip_over input pos = pos :=
  x3.skip_over_of_spaceRun input pos (by rw [hin]; exact htail)

theorem space_separator_ok {α : Type} (input : Input) (pos : Nat) (ctx : ParserContext) (attr : α)
    (ws tail : List Char) (hne : ws ≠ []) (hws : ∀ c ∈ ws, x3.isspace c = true)
    (htail : x3.spaceRun tail = 0) (hin : input.drop pos = ws ++ tail) :
    space_separator input pos ctx attr = .ok attr (pos + ws.length) ctx := by
  unfold space_separator
  rw [hin, x3.spaceRun_append ws tail hws htail]
  cases ws with
  | nil => exact absurd rfl hne
  | cons c cs => simp

theorem space_separator_eoi {α : Type} (input : Input) (pos : Nat) (ctx : ParserContext) (attr : α)
    (hin : input.drop pos = []) :
    space_separator input pos ctx attr = .fail attr pos ctx := by
  unfold space_separator
  rw [hin]
  rfl

theorem List.drop_past (input : List Char) (pos : Nat) (ws tail : List Char)
    (hin : input.drop pos = ws ++ tail) : input.drop (pos + ws.length) = tail := by
  rw [← List.drop_drop, hin, List.drop_left]

theorem x3.seq_ok {α : Type} {p q : Parser α} {input : Input} {pos : Nat} {ctx : ParserContext}
    {attr a1 a2 : α} {pos1 pos2 : Nat} {c1 c2 : ParserContext}
    (hp : p input pos ctx attr = .ok a1 pos1 c1) (hq : q input pos1 c1 a1 = .ok a2 pos2 c2) :
    x3.seq p q input pos ctx attr = .ok a2 pos2 c2 := by
  simp only [x3.seq, hp, hq]

theorem x3.onField_ok {α β : Type} {get : α → β} {set : α → β → α} {p : Parser β} {input : Input}
    {pos : Nat} {ctx : ParserContext} {attr : α} {b : β} {pos1 : Nat} {c1 : ParserContext}
    (hp : p input pos ctx (get attr) = .ok b pos1 c1) :
    x3.onField get set p input pos ctx attr = .ok (set attr b) pos1 c1 := by
  simp only [x3.onField, hp]

theorem x3.optional_ok {β : Type} {init : β} {p : Parser β} {input : Input}
    {pos : Nat} {ctx : ParserContext} {attr : Option β} {b : β} {pos1 : Nat} {c1 : ParserContext}
    (hp : p input pos ctx init = .ok b pos1 c1) :
    x3.optional init p input pos ctx attr = .ok (some b) pos1 c1 := by
  simp only [x3.optional, hp]

theorem x3.seq_not_isFail {α : Type} {p q : Parser α} {input : Input} {pos : Nat}
    {ctx : ParserContext} {attr : α} (hp : (p input pos ctx attr).isFail = false)
    (hq : x3.NoSoftFail q) : (x3.seq p q input pos ctx attr).isFail = false := by
  cases hr : p input pos ctx attr with
  | ok a1 pos1 c1 =>
    have h := hq input pos1 c1 a1
    cases hr2 : q input pos1 c1 a1 with
    | ok a2 pos2 c2 => simp only [x3.seq, hr, hr2, PResult.isFail]
    | fail a2 pos2 c2 => simp [hr2, PResult.isFail] at h
    | raise e c2 => simp only [x3.seq, hr, hr2, PResult.isFail]
  | fail a1 pos1 c1 => simp [hr, PResult.isFail] at hp
  | raise e c1 => simp only [x3.seq, hr, PResult.isFail]

theorem x3.noSoftFail_seq {α : Type} {p q : Parser α} (hp : x3.NoSoftFail p)
    (hq : x3.NoSoftFail q) : x3.NoSoftFail (x3.seq p q) :=
  fun input pos ctx attr => x3.seq_not_isFail (hp input pos ctx attr) hq

theorem x3.rule_isFail {α : Type} (p : Parser α) (input : Input) (pos : Nat) (ctx : ParserContext)
    (attr : α) : (x3.rule p input pos ctx attr).isFail = (p input pos ctx attr).isFail := by
  unfold x3.rule
  cases p input pos ctx attr <;> rfl

theorem x3.seqExpect_ok {α : Type} {p q : Parser α} {which : String} {input : Input} {pos : Nat}
    {ctx : ParserContext} {attr a1 a2 : α} {pos1 pos2 : Nat} {c1 c2 : ParserContext}
    (hp : p input pos ctx attr = .ok a1 pos1 c1) (hq : q input pos1 c1 a1 = .ok a2 pos2 c2) :
    x3.seqExpect p which q input pos ctx attr = .ok a2 pos2 c2 := by
  simp only [x3.seqExpect, x3.seq, x3.expect, hp, hq]

theorem x3.symbols_ok {β : Type} (table : List (String × β)) (input : Input) (pos : Nat)
    (ctx : ParserContext) (attr : β) (tail : List Char) (n : Nat) (v : β)
    (hin : input.drop pos = tail) (hsp : x3.spaceRun tail = 0)
    (hsym : x3.symbolsFind table tail = some (n, v)) :
    x3.symbols table input pos ctx attr = .ok v (pos + n) ctx := by
  simp only [x3.symbols, x3.skip_over_of_drop input pos tail hin hsp, hin, hsym]

theorem createCommandSuggestions_noSoftFail (G : SubGrammars) {α : Type} :
    x3.NoSoftFail (createCommandSuggestions G : Parser α) :=
  fun _ _ _ _ => rfl

/-! ## The schema tree -/

theorem umapFind_assign {β : Type} (k k' : String) (v : β) (m : List (String × β)) :
    umapFind k' (umapAssign k v m) = if k' = k then some v else umapFind k' m := by
  induction m with
  | nil =>
    by_cases h : k' = k
    · simp [umapAssign, umapFind, h]
    · have h' : ¬ k = k' := fun e => h e.symm
      simp [umapAssign, umapFind, h, h']
  | cons e rest ih =>
    obtain ⟨k0, v0⟩ := e
    by_cases h0 : k0 = k
    · subst h0
      by_cases h : k' = k0
      · simp [umapAssign, umapFind, h]
      · have h' : ¬ k0 = k' := fun e => h e.symm
        simp [umapAssign, umapFind, h, h']
    · by_cases h1 : k0 = k'
      · subst h1
        simp [umapAssign, umapFind, h0]
      · simp [umapAssign, umapFind, h0, h1, ih]

theorem umapFind_append_single {β : Type} (k k' : String) (v : β) (m : List (String × β)) :
    umapFind k' (m ++ [(k, v)])
      = match umapFind k' m with
        | some w => some w
        | none => if k = k' then some v else none := by
  induction m with
  | nil => simp [umapFind]
  | cons e rest ih =>
    obtain ⟨k0, v0⟩ := e
    by_cases h : k0 = k'
    · simp [umapFind, h]
    · simp [umapFind, h, ih]

/-- The lookup of a child under a location, on the raw registry. -/
theorem CTree.node_eq (t : CTree) (location name : String) :
    t.node location name
      = match umapFind location t.m_nodes with
        | none => .error .InvalidNodeException
        | some ch =>
          match umapFind name ch with
          | none => .error .InvalidNodeException
          | some n => .ok n := rfl

/-- Registering a location with no children, unless it is registered already, changes
no lookup of a child. -/
theorem CTree.node_emplace (m : List (String × ChildMap)) (key location name : String) :
    CTree.node ⟨umapEmplace key [] m⟩ location name = CTree.node ⟨m⟩ location name := by
  unfold umapEmplace
  cases hk : umapFind key m with
  | some ch => rfl
  | none =>
    simp only [CTree.node_eq, umapFind_append_single]
    cases hl : umapFind location m with
    | some ch => rfl
    | none =>
      by_cases h : key = location
      · simp [h, umapFind]
      · simp [h]

/-- The lookup of a child after a successful insertion: the inserted pair yields the
inserted node, every other pair yields what it yielded before. -/
theorem CTree.node_addNode (t t' : CTree) (location name : String) (n : NodeType)
    (h : t.addNode location name n = .ok t') (location' name' : String) :
    t'.node location' name'
      = if location' = location ∧ name' = name then .ok n else t.node location' name' := by
  unfold CTree.addNode CTree.children at h
  cases hch : umapFind location t.m_nodes with
  | none => simp [hch] at h
  | some ch =>
    simp only [hch, Except.ok.injEq] at h
    subst h
    rw [CTree.node_emplace]
    simp only [CTree.node_eq, umapFind_assign]
    by_cases hl : location' = location
    · subst hl
      by_cases hn : name' = name
      · simp [hn, umapFind_assign]
      · simp [hn, hch, umapFind_assign]
    · simp [hl]

theorem AddCall.node_run (t t' : CTree) (c : AddCall) (h : c.run t = .ok t')
    (location name : String) (hne : (location, name) ≠ c.target) :
    t'.node location name = t.node location name := by
  have key : ∀ n, t.addNode c.target.1 c.target.2 n = .ok t' →
      t'.node location name = t.node location name := by
    intro n hn
    rw [CTree.node_addNode t t' _ _ n hn]
    have : ¬ (location = c.target.1 ∧ name = c.target.2) := by
      rintro ⟨h1, h2⟩
      exact hne (by rw [h1, h2])
    simp [this]
  cases c with
  | addContainer l n => exact key _ h
  | addList l n keys => exact key _ h

theorem AddCall.node_run_target (t t' : CTree) (c : AddCall) (h : c.run t = .ok t') :
    ∃ n, t'.node c.target.1 c.target.2 = .ok n := by
  cases c with
  | addContainer l n =>
    refine ⟨NodeType.container {}, ?_⟩
    rw [CTree.node_addNode t t' l n _ h]
    simp [AddCall.target]
  | addList l n keys =>
    refine ⟨NodeType.list ⟨keys⟩, ?_⟩
    rw [CTree.node_addNode t t' l n _ h]
    simp [AddCall.target]

theorem AddCall.node_run_isOk (t t' : CTree) (c : AddCall) (h : c.run t = .ok t')
    (location name : String) (hex : ∃ n, t.node location name = .ok n) :
    ∃ n, t'.node location name = .ok n := by
  by_cases hne : (location, name) = c.target
  · have := AddCall.node_run_target t t' c h
    rw [← hne] at this
    exact this
  · rw [AddCall.node_run t t' c h location name hne]
    exact hex

theorem CTree.node_build_isOk (calls : List AddCall) (t : CTree) (location name : String)
    (hex : ∃ n, t.node location name = .ok n) :
    ∃ n, (CTree.build t calls).node location name = .ok n := by
  induction calls generalizing t with
  | nil => exact hex
  | cons c rest ih =>
    unfold CTree.build
    cases hr : c.run t with
    | ok t' => exact ih t' (AddCall.node_run_isOk t t' c hr location name hex)
    | error e => exact ih t hex

theorem CTree.node_build_registered (calls : List AddCall) (t : CTree) (location name : String)
    (h : (location, name) ∈ CTree.registered t calls) :
    ∃ n, (CTree.build t calls).node location name = .ok n := by
  induction calls generalizing t with
  | nil => simp [CTree.registered] at h
  | cons c rest ih =>
    unfold CTree.registered at h
    unfold CTree.build
    cases hr : c.run t with
    | ok t' =>
      simp only [hr, List.mem_cons] at h
      rcases h with h | h
      · have := AddCall.node_run_target t t' c hr
        rw [← h] at this
        exact CTree.node_build_isOk rest t' location name this
      · exact ih t' h
    | error e =>
      simp only [hr] at h
      exact ih t h

theorem CTree.node_build_unregistered (calls : List AddCall) (t : CTree) (location name : String)
    (h0 : t.node location name = .error .InvalidNodeException)
    (h : (location, name) ∉ CTree.registered t calls) :
    (CTree.build t calls).node location name = .error .InvalidNodeException := by
  induction calls generalizing t with
  | nil => exact h0
  | cons c rest ih =>
    unfold CTree.registered at h
    unfold CTree.build
    cases hr : c.run t with
    | ok t' =>
      simp only [hr, List.mem_cons, not_or] at h
      exact ih t' (by rw [AddCall.node_run t t' c hr location name h.1]; exact h0) h.2
    | error e =>
      simp only [hr] at h
      exact ih t h0 h

theorem CTree.node_empty (location name : String) :
    CTree.empty.node location name = .error .InvalidNodeException := by
  simp only [CTree.node_eq, CTree.empty, umapFind]
  by_cases h : "" = location <;> simp [h, umapFind]

theorem CTree.nodeExists_eq (t : CTree) (location name : String) :
    t.nodeExists location name
      = match t.node location name with
        | .ok _ => true
        | .error _ => false := by
  unfold CTree.nodeExists CTree.node CTree.children
  cases umapFind location t.m_nodes with
  | none => rfl
  | some ch => cases h : umapFind name ch <;> simp [h]

/-- C8: in the schema tree built from the empty tree by any sequence of
`addContainer`/`addList` calls, every `(location, name)` pair registered by one of
the calls exists (`nodeExists` is true) and exactly one of `isContainer` and
`isList` is true of it, the other being false. -/
theorem registered_node_classified (calls : List AddCall) (location name : String)
    (h : (location, name) ∈ CTree.registered CTree.empty calls) :
    (CTree.build CTree.empty calls).nodeExists location name = true
    ∧ (((CTree.build CTree.empty calls).isContainer location name = .ok true
          ∧ (CTree.build CTree.empty calls).isList location name = .ok false)
      ∨ ((CTree.build CTree.empty calls).isContainer location name = .ok false
          ∧ (CTree.build CTree.empty calls).isList location name = .ok true)) := by
  obtain ⟨n, hn⟩ := CTree.node_build_registered calls CTree.empty location name h
  rw [CTree.nodeExists_eq]
  unfold CTree.isContainer CTree.isList
  rw [hn]
  cases n with
  | container c => exact ⟨rfl, Or.inl ⟨rfl, rfl⟩⟩
  | list l => exact ⟨rfl, Or.inr ⟨rfl, rfl⟩⟩

/-- Witness of C8: a container and a list under it. -/
theorem registered_node_classified_witness :
    (CTree.build CTree.empty
        [AddCall.addContainer "" "mod:cont", AddCall.addList "mod:cont" "protocols" {"name"}]
      ).nodeExists "mod:cont" "protocols" = true
    ∧ (((CTree.build CTree.empty
          [AddCall.addContainer "" "mod:cont", AddCall.addList "mod:cont" "protocols" {"name"}]
          ).isContainer "mod:cont" "protocols" = .ok true
        ∧ (CTree.build CTree.empty
          [AddCall.addContainer "" "mod:cont", AddCall.addList "mod:cont" "protocols" {"name"}]
          ).isList "mod:cont" "protocols" = .ok false)
      ∨ ((CTree.build CTree.empty
          [AddCall.addContainer "" "mod:cont", AddCall.addList "mod:cont" "protocols" {"name"}]
          ).isContainer "mod:cont" "protocols" = .ok false
        ∧ (CTree.build CTree.empty
          [AddCall.addContainer "" "mod:cont", AddCall.addList "mod:cont" "protocols" {"name"}]
          ).isList "mod:cont" "protocols" = .ok true)) :=
  registered_node_classified
    [AddCall.addContainer "" "mod:cont", AddCall.addList "mod:cont" "protocols" {"name"}]
    "mod:cont" "protocols" (by decide)

/-- C9: in the schema tree built from the empty tree by any sequence of calls, for
every `(location, name)` pair that no call registered (the location is unknown,
or it has no child of that name), `isContainer`, `isList` and `listKeys` fail
with the "unknown node" error, and `nodeExists` returns false. -/
theorem unregistered_node_unknown (calls : List AddCall) (location name : String)
    (h : (location, name) ∉ CTree.registered CTree.empty calls) :
    (CTree.build CTree.empty calls).isContainer location name
        = .error CTreeError.InvalidNodeException
    ∧ (CTree.build CTree.empty calls).isList location name
        = .error CTreeError.InvalidNodeException
    ∧ (CTree.build CTree.empty calls).listKeys location name
        = .error CTreeError.InvalidNodeException
    ∧ (CTree.build CTree.empty calls).nodeExists location name = false := by
  have hn := CTree.node_build_unregistered calls CTree.empty location name
    (CTree.node_empty location name) h
  rw [CTree.nodeExists_eq]
  unfold CTree.isContainer CTree.isList CTree.listKeys
  rw [hn]
  exact ⟨rfl, rfl, rfl, rfl⟩

/-- Witness of C9: an unknown location, and a known location without the child. -/
theorem unregistered_node_unknown_witness :
    ((CTree.build CTree.empty [AddCall.addContainer "" "mod:cont"]).isContainer "nowhere" "x"
        = .error CTreeError.InvalidNodeException
      ∧ (CTree.build CTree.empty [AddCall.addContainer "" "mod:cont"]).isList "nowhere" "x"
        = .error CTreeError.InvalidNodeException
      ∧ (CTree.build CTree.empty [AddCall.addContainer "" "mod:cont"]).listKeys "nowhere" "x"
        = .error CTreeError.InvalidNodeException
      ∧ (CTree.build CTree.empty [AddCall.addContainer "" "mod:cont"]).nodeExists "nowhere" "x"
        = false)
    ∧ ((CTree.build CTree.empty [AddCall.addContainer "" "mod:cont"]).isContainer "mod:cont" "x"
        = .error CTreeError.InvalidNodeException
      ∧ (CTree.build CTree.empty [AddCall.addContainer "" "mod:cont"]).isList "mod:cont" "x"
        = .error CTreeError.InvalidNodeException
      ∧ (CTree.build CTree.empty [AddCall.addContainer "" "mod:cont"]).listKeys "mod:cont" "x"
        = .error CTreeError.InvalidNodeException
      ∧ (CTree.build CTree.empty [AddCall.addContainer "" "mod:cont"]).nodeExists "mod:cont" "x"
        = false) :=
  ⟨unregistered_node_unknown [AddCall.addContainer "" "mod:cont"] "nowhere" "x" (by decide),
   unregistered_node_unknown [AddCall.addContainer "" "mod:cont"] "mod:cont" "x" (by decide)⟩

/-- C10: for every tree, every location registered in it, every name and every key
set `K`, `addList` succeeds, and in the tree it yields `listKeys` returns `K` and
`listHasKey` is true of a string exactly when the string is a member of `K`. -/
theorem addList_listKeys (t : CTree) (location name : String) (K : Finset String)
    (hloc : (t.children location).isSome = true) :
    ∃ t', t.addList location name K = .ok t'
      ∧ t'.listKeys location name = .ok K
      ∧ ∀ k : String, t'.listHasKey location name k = .ok (decide (k ∈ K)) := by
  cases hch : t.children location with
  | none => simp [hch] at hloc
  | some ch =>
    have hadd : t.addList location name K
        = .ok ⟨umapEmplace (CTree.joinPaths location name) []
            (umapAssign location (umapAssign name (NodeType.list ⟨K⟩) ch) t.m_nodes)⟩ := by
      simp only [CTree.addList, CTree.addNode, hch]
    refine ⟨_, hadd, ?_, ?_⟩
    · unfold CTree.listKeys
      rw [CTree.node_addNode t _ location name _ hadd]
      simp
    · intro k
      unfold CTree.listHasKey CTree.listKeys
      rw [CTree.node_addNode t _ location name _ hadd]
      simp

/-- Witness of C10: the list `protocols` keyed by `name`, added at the root. -/
theorem addList_listKeys_witness :
    ∃ t', CTree.empty.addList "" "protocols" {"name"} = .ok t'
      ∧ t'.listKeys "" "protocols" = .ok {"name"}
      ∧ t'.listHasKey "" "protocols" "name" = .ok true
      ∧ t'.listHasKey "" "protocols" "bogus" = .ok false := by
  obtain ⟨t', h1, h2, h3⟩ := addList_listKeys CTree.empty "" "protocols" {"name"} rfl
  refine ⟨t', h1, h2, ?_, ?_⟩
  · rw [h3 "name"]; rfl
  · rw [h3 "bogus"]; rfl

/-! ## The copy command -/

/-- C1: for every datastore name `d` of the copy grammar (`running`, `startup`),
parsing "copy d d" fails: the `copy` definition and the `command` rule both
raise an expectation failure whose offset is the offset of the first character
of the second `d` (the length of "copy d "), the error message of the context is
the duplicate-datastore message, and that offset is not the end of the input. -/
theorem copy_same_datastore_rejected (G : SubGrammars) (d : String)
    (hd : d ∈ datastore.map Prod.fst) (ctx : ParserContext) (attr : copy_) (cattr : command_) :
    (∃ which c, copy_def ("copy " ++ d ++ " " ++ d).toList 0 ctx attr
          = .raise (.expectation_failure ("copy " ++ d ++ " ").length which) c
        ∧ c.m_errorMsg = "Source datastore and destination datastore can't be the same.")
    ∧ (∃ which c, command G ("copy " ++ d ++ " " ++ d).toList 0 ctx cattr
          = .raise (.expectation_failure ("copy " ++ d ++ " ").length which) c
        ∧ c.m_errorMsg = "Source datastore and destination datastore can't be the same.")
    ∧ ("copy " ++ d ++ " ").length < ("copy " ++ d ++ " " ++ d).length := by
  simp only [datastore, List.map, List.mem_cons, List.mem_singleton, List.not_mem_nil,
    or_false] at hd
  rcases hd with rfl | rfl
  · exact ⟨⟨_, _, rfl, rfl⟩, ⟨_, _, rfl, rfl⟩, by decide⟩
  · exact ⟨⟨_, _, rfl, rfl⟩, ⟨_, _, rfl, rfl⟩, by decide⟩

/-- Witness of C1: "copy running running" raises at offset 13, with the
duplicate-datastore message. -/
theorem copy_same_datastore_rejected_witness :
    ∃ which c, command SubGrammars.none "copy running running".toList 0 ParserContext.fresh
          command_.quit = .raise (.expectation_failure 13 which) c
        ∧ c.m_errorMsg = "Source datastore and destination datastore can't be the same." :=
  (copy_same_datastore_rejected SubGrammars.none "running" (by decide) ParserContext.fresh
    copy_.init command_.quit).2.1

/-- C2: for distinct datastore names `s` and `d` of the copy grammar, parsing
"copy s d" succeeds, consumes the whole input and yields the Copy command whose
source is the datastore named `s` and whose destination is the one named `d`. -/
theorem copy_distinct_datastores_accepted (G : SubGrammars) (s d : String) (vs vd : Datastore)
    (hs : (s, vs) ∈ datastore) (hd : (d, vd) ∈ datastore) (hne : s ≠ d)
    (ctx : ParserContext) (attr : copy_) (cattr : command_) :
    (∃ c, copy_def ("copy " ++ s ++ " " ++ d).toList 0 ctx attr
          = .ok ⟨vs, vd⟩ ("copy " ++ s ++ " " ++ d).length c)
    ∧ (∃ c, command G ("copy " ++ s ++ " " ++ d).toList 0 ctx cattr
          = .ok (command_.copy ⟨vs, vd⟩) ("copy " ++ s ++ " " ++ d).length c) := by
  simp only [datastore, List.mem_cons, List.mem_singleton, List.not_mem_nil, or_false,
    Prod.mk.injEq] at hs hd
  rcases hs with ⟨rfl, rfl⟩ | ⟨rfl, rfl⟩ <;> rcases hd with ⟨rfl, rfl⟩ | ⟨rfl, rfl⟩
  · exact absurd rfl hne
  · exact ⟨⟨_, rfl⟩, ⟨_, rfl⟩⟩
  · exact ⟨⟨_, rfl⟩, ⟨_, rfl⟩⟩
  · exact absurd rfl hne

/-- Witness of C2: "copy running startup" yields `Copy{Running, Startup}`. -/
theorem copy_distinct_datastores_accepted_witness :
    ∃ c, command SubGrammars.none "copy running startup".toList 0 ParserContext.fresh
          command_.quit = .ok (command_.copy ⟨Datastore.Running, Datastore.Startup⟩) 20 c :=
  (copy_distinct_datastores_accepted SubGrammars.none "running" "startup" Datastore.Running
    Datastore.Startup (by decide) (by decide) (by decide) ParserContext.fresh copy_.init
    command_.quit).2

/-! ## The move command -/

/-- C6: when the move source-path grammar accepts a source and whitespace and
`begin` or `end` follow it, `move_args` succeeds with the absolute destination
named by the keyword, its iterator is past exactly the source, the whitespace
and the keyword, and the context is the one the source parser left: the relative
branch is not entered, so the destination is not a `Relative` value and no
scratch list path is written. -/
theorem move_absolute_destination (G : SubGrammars) (input : Input) (begin : Nat)
    (ctx : ParserContext) (attr : move_) (src : dataPath_) (pos1 : Nat) (c1 : ParserContext)
    (ws rest : List Char) (kw : String) (v : yang.move.Absolute)
    (hsrc : x3.alt G.listInstancePath G.leafListElementPath input begin ctx attr.m_source
      = .ok src pos1 c1)
    (hkw : (kw, v) ∈ move_absolute_table)
    (hne : ws ≠ []) (hws : ∀ c ∈ ws, x3.isspace c = true)
    (hin : input.drop pos1 = ws ++ (kw.toList ++ rest)) :
    move_args G input begin ctx attr
      = .ok ⟨src, MoveDestination.absolute v⟩ (pos1 + ws.length + kw.length) c1 := by
  simp only [move_absolute_table, List.mem_cons, List.mem_singleton, List.not_mem_nil, or_false,
    Prod.mk.injEq] at hkw
  have hdrop := List.drop_past input pos1 ws _ hin
  rcases hkw with ⟨rfl, rfl⟩ | ⟨rfl, rfl⟩
  · have hsp : ∀ a : move_, space_separator input pos1 c1 a = .ok a (pos1 + ws.length) c1 :=
      fun a => space_separator_ok input pos1 c1 a ws ("begin".toList ++ rest) hne hws rfl hin
    have hskip := x3.skip_over_of_drop input (pos1 + ws.length) _ hdrop rfl
    simp only [move_args, x3.onField, hsrc, x3.seq, hsp, x3.variantAlt, x3.symbols, hskip, hdrop]
    rfl
  · have hsp : ∀ a : move_, space_separator input pos1 c1 a = .ok a (pos1 + ws.length) c1 :=
      fun a => space_separator_ok input pos1 c1 a ws ("end".toList ++ rest) hne hws rfl hin
    have hskip := x3.skip_over_of_drop input (pos1 + ws.length) _ hdrop rfl
    simp only [move_args, x3.onField, hsrc, x3.seq, hsp, x3.variantAlt, x3.symbols, hskip, hdrop]
    rfl

/-- Witness of C6: the list instance of the sample schema followed by `begin`. -/
theorem move_absolute_destination_witness :
    move_args SubGrammars.sample "/mod:cont/protocols[name=\"ftp\"] begin".toList 0
        ParserContext.fresh move_.init
      = .ok ⟨sampleListInstancePath, MoveDestination.absolute yang.move.Absolute.Begin⟩ 37
          { ParserContext.fresh with m_curPath := sampleListInstancePath } :=
  move_absolute_destination SubGrammars.sample
    "/mod:cont/protocols[name=\"ftp\"] begin".toList 0 ParserContext.fresh move_.init
    sampleListInstancePath 31 { ParserContext.fresh with m_curPath := sampleListInstancePath }
    [' '] [] "begin" yang.move.Absolute.Begin rfl (by decide) (by decide) (by decide) rfl

/-- The relative branch of `move_args` at the end of the input: the source has
parsed, no absolute keyword follows the whitespace, the relative keyword of
length `n` does, and nothing follows it. -/
theorem move_args_relative_at_end (G : SubGrammars) (input : Input) (begin : Nat)
    (ctx : ParserContext) (attr : move_) (src : dataPath_) (pos1 : Nat) (c1 : ParserContext)
    (ws : List Char) (n : Nat) (v : yang.move.Position) (last : dataNode_)
    (hsrc : x3.alt G.listInstancePath G.leafListElementPath input begin ctx attr.m_source
      = .ok src pos1 c1)
    (hlast : src.m_nodes.getLast? = some last)
    (hkind : (∃ name value, last.m_suffix = dataSuffix.leafListElement_ name value)
      ∨ ((∃ name keys, last.m_suffix = dataSuffix.listElement_ name keys)
          ∧ c1.currentDataPath.m_nodes ≠ []))
    (hsp : ∀ (α : Type) (a : α), space_separator input pos1 c1 a = .ok a (pos1 + ws.length) c1)
    (hskip : x3.skip_over input (pos1 + ws.length) = pos1 + ws.length)
    (hsym1 : x3.symbolsFind move_absolute_table (input.drop (pos1 + ws.length)) = none)
    (hsym2 : x3.symbolsFind move_relative_table (input.drop (pos1 + ws.length)) = some (n, v))
    (hend : input.drop (pos1 + ws.length + n) = []) :
    ∃ a c, move_args G input begin ctx attr = .fail a (pos1 + ws.length + n) c
      ∧ c.m_errorMsg = "Expected a destination here:" := by
  have hsp2 : ∀ (α : Type) (a : α) (c : ParserContext),
      space_separator input (pos1 + ws.length + n) c a = .fail a (pos1 + ws.length + n) c :=
    fun α a c => space_separator_eoi input _ c a hend
  rcases hkind with ⟨name, value, hs⟩ | ⟨⟨name, keys, hs⟩, hcur⟩
  · simp only [move_args, x3.onField, hsrc, x3.seq, hsp, x3.variantAlt, x3.symbols, hskip, hsym1,
      hsym2, move_args.destination, hlast, hs, hsp2]
    exact ⟨_, _, rfl, rfl⟩
  · simp only [move_args, x3.onField, hsrc, x3.seq, hsp, x3.variantAlt, x3.symbols, hskip, hsym1,
      hsym2, move_args.destination, hlast, hs, hsp2]
    cases hn : c1.currentDataPath.m_nodes with
    | nil => exact absurd hn hcur
    | cons n ns =>
      simp only [hn]
      exact ⟨_, _, rfl, rfl⟩

/-- C7: when the move source-path grammar accepts a source, whitespace and `before`
or `after` follow it, and the input ends there, `move_args` returns `false` and
the error message of the context is "Expected a destination here:".  The source
ends in a leaf-list element, or in a list instance (in which case the source
parser has left the instance in the current path of the context, which is
therefore not empty). -/
theorem move_relative_without_destination (G : SubGrammars) (input : Input) (begin : Nat)
    (ctx : ParserContext) (attr : move_) (src : dataPath_) (pos1 : Nat) (c1 : ParserContext)
    (ws : List Char) (kw : String) (v : yang.move.Position) (last : dataNode_)
    (hsrc : x3.alt G.listInstancePath G.leafListElementPath input begin ctx attr.m_source
      = .ok src pos1 c1)
    (hlast : src.m_nodes.getLast? = some last)
    (hkind : (∃ name value, last.m_suffix = dataSuffix.leafListElement_ name value)
      ∨ ((∃ name keys, last.m_suffix = dataSuffix.listElement_ name keys)
          ∧ c1.currentDataPath.m_nodes ≠ []))
    (hkw : (kw, v) ∈ move_relative_table)
    (hne : ws ≠ []) (hws : ∀ c ∈ ws, x3.isspace c = true)
    (hin : input.drop pos1 = ws ++ kw.toList) :
    ∃ a c, move_args G input begin ctx attr = .fail a (pos1 + ws.length + kw.length) c
      ∧ c.m_errorMsg = "Expected a destination here:" := by
  simp only [move_relative_table, List.mem_cons, List.mem_singleton, List.not_mem_nil, or_false,
    Prod.mk.injEq] at hkw
  have hdrop := List.drop_past input pos1 ws _ hin
  rcases hkw with ⟨rfl, rfl⟩ | ⟨rfl, rfl⟩
  · refine move_args_relative_at_end G input begin ctx attr src pos1 c1 ws 6
      yang.move.Position.Before last hsrc hlast
      hkind (fun α a => space_separator_ok input pos1 c1 a ws "before".toList hne hws rfl hin)
      (x3.skip_over_of_drop input (pos1 + ws.length) _ hdrop rfl) ?_ ?_ ?_
    · rw [hdrop]; rfl
    · rw [hdrop]; rfl
    · rw [← List.drop_drop, hdrop]; rfl
  · refine move_args_relative_at_end G input begin ctx attr src pos1 c1 ws 5
      yang.move.Position.After last hsrc hlast
      hkind (fun α a => space_separator_ok input pos1 c1 a ws "after".toList hne hws rfl hin)
      (x3.skip_over_of_drop input (pos1 + ws.length) _ hdrop rfl) ?_ ?_ ?_
    · rw [hdrop]; rfl
    · rw [hdrop]; rfl
    · rw [← List.drop_drop, hdrop]; rfl

/-- Witness of C7: the list instance of the sample schema followed by `before`
and the end of the input. -/
theorem move_relative_without_destination_witness :
    ∃ a c, move_args SubGrammars.sample "/mod:cont/protocols[name=\"ftp\"] before".toList 0
        ParserContext.fresh move_.init = .fail a 38 c
      ∧ c.m_errorMsg = "Expected a destination here:" :=
  move_relative_without_destination SubGrammars.sample
    "/mod:cont/protocols[name=\"ftp\"] before".toList 0 ParserContext.fresh move_.init
    sampleListInstancePath 31 { ParserContext.fresh with m_curPath := sampleListInstancePath }
    [' '] "before" yang.move.Position.Before
    (dataNode_.mk none (dataSuffix.listElement_ "protocols" [("name", "ftp")]))
    rfl rfl (Or.inr ⟨⟨_, _, rfl⟩, by decide⟩) (by decide) (by decide) (by decide) rfl

/-! ## Commit points of the verb rules -/

/-- C4, the run of the code: on "dump yaml" the definition of `dump` and the rule
`command` raise an expectation failure, the error message of the context is
"Expected a data format (xml, json) here:", the completion anchor is offset 5,
the start of `yaml`, but the offset of the raised failure is 4, the whitespace
before it: the sequence `space_separator >> dump_args` puts the iterator back
before the failure is raised. -/
theorem dump_yaml_failure_offset (G : SubGrammars) (ctx : ParserContext) (attr : dump_)
    (cattr : command_) :
    (∃ which c, dump_def "dump yaml".toList 0 ctx attr = .raise (.expectation_failure 4 which) c
        ∧ c.m_errorMsg = "Expected a data format (xml, json) here:"
        ∧ c.m_completionIterator = some 5)
    ∧ (∃ which c, command G "dump yaml".toList 0 ctx cattr
          = .raise (.expectation_failure 4 which) c
        ∧ c.m_errorMsg = "Expected a data format (xml, json) here:"
        ∧ c.m_completionIterator = some 5) :=
  ⟨⟨_, _, rfl, rfl, rfl⟩, ⟨_, _, rfl, rfl, rfl⟩⟩

/-! ## The get command -/

/-- C5, refuted as stated: on "get -datastore running", with a single dash, `get`
raises an expectation failure at offset 5: after the `-` the literal
`-datastore` is expected. -/
theorem get_single_dash_rejected :
    get_def SubGrammars.sample "get -datastore running".toList 0 ParserContext.fresh get_.init
      = .raise (.expectation_failure 5 "\"-datastore\"")
          { ParserContext.fresh with
            m_suggestions := {Completion.mk "-datastore" " "}
            m_completionIterator := some 5 } :=
  rfl

theorem get_def.datastoreFlag_ok (tail : List Char) (ctx : ParserContext) (attr : DatastoreTarget)
    (n : Nat) (v : DatastoreTarget) (hsp : x3.spaceRun tail = 0)
    (hsym : x3.symbolsFind ds_target_table tail = some (n, v)) :
    get_def.datastoreFlag ("get --datastore ".toList ++ tail) 3 ctx attr
      = .ok v (16 + n) (get_def.contextAfterFlag ctx 16) := by
  have s1 : x3.seq space_separator (x3.lit "-") ("get --datastore ".toList ++ tail) 3 ctx attr
      = .ok attr 5 ctx := rfl
  have s2 : staticSuggestions ["-datastore"] ("get --datastore ".toList ++ tail) 5 ctx attr
      = .ok attr 5 { ctx with
          m_suggestions := {Completion.mk "-datastore" " "}
          m_completionIterator := some 5 } := rfl
  have s3 : ∀ c : ParserContext,
      x3.lit "-datastore" ("get --datastore ".toList ++ tail) 5 c attr = .ok attr 15 c :=
    fun _ => rfl
  have s4 : ∀ c : ParserContext,
      space_separator ("get --datastore ".toList ++ tail) 15 c attr = .ok attr 16 c :=
    fun c => space_separator_ok _ 15 c attr [' '] tail (by decide) (by decide) hsp rfl
  have hskip : x3.skip_over ("get --datastore ".toList ++ tail) 16 = 16 :=
    x3.skip_over_of_drop _ 16 tail rfl hsp
  have s5 : ∀ c : ParserContext,
      dsTargetSuggestions ("get --datastore ".toList ++ tail) 16 c attr
        = .ok attr 16 (get_def.contextAfterFlag c 16) := by
    intro c
    simp only [dsTargetSuggestions, staticSuggestions, x3.epsAction, hskip]
    rfl
  have s6 : ∀ c : ParserContext,
      x3.symbols ds_target_table ("get --datastore ".toList ++ tail) 16 c attr
        = .ok v (16 + n) c :=
    fun c => x3.symbols_ok _ _ 16 c attr tail n v rfl hsp hsym
  exact x3.seqExpect_ok (x3.seqExpect_ok (x3.seqExpect_ok (x3.seqExpect_ok (x3.seqExpect_ok s1 s2)
    (s3 _)) (s4 _)) (s5 _)) (s6 _)

/-- C5, amended: for every target `t` of `ds_target_table`, `get` accepts
"get --datastore t", the flag written with two dashes, and yields the target
named `t` and no path; and when a path follows after a space and `getPath`
accepts it there, `get` yields the same target together with that path. -/
theorem get_double_dash_datastore (G : SubGrammars) (t : String) (v : DatastoreTarget)
    (ht : (t, v) ∈ ds_target_table) (ctx : ParserContext) :
    get_def G ("get --datastore " ++ t).toList 0 ctx get_.init
        = .ok ⟨some v, none⟩ ("get --datastore " ++ t).length (get_def.contextAfterFlag ctx 16)
    ∧ ∀ (rest : List Char) (path : anyPath_) (pos1 : Nat) (c1 : ParserContext),
        x3.spaceRun rest = 0 →
        G.getPath (("get --datastore " ++ t ++ " ").toList ++ rest)
            ("get --datastore " ++ t ++ " ").length (get_def.contextAfterFlag ctx 16) anyPath_.init
          = .ok path pos1 c1 →
        get_def G (("get --datastore " ++ t ++ " ").toList ++ rest) 0 ctx get_.init
          = .ok ⟨some v, some path⟩ pos1 c1 := by
  simp only [ds_target_table, List.mem_cons, List.mem_singleton, List.not_mem_nil, or_false,
    Prod.mk.injEq] at ht
  rcases ht with ⟨rfl, rfl⟩ | ⟨rfl, rfl⟩ | ⟨rfl, rfl⟩
  · refine ⟨rfl, fun rest path pos1 c1 hrest hP => ?_⟩
    have hlit : x3.lit get_.name (("get --datastore " ++ "operational" ++ " ").toList ++ rest) 0 ctx
        get_.init = .ok get_.init 3 ctx := rfl
    have hflag := get_def.datastoreFlag_ok ("operational ".toList ++ rest) ctx
      DatastoreTarget.Operational 11 DatastoreTarget.Operational rfl rfl
    have h2 : space_separator (("get --datastore " ++ "operational" ++ " ").toList ++ rest) 27
        (get_def.contextAfterFlag ctx 16) anyPath_.init
        = .ok anyPath_.init 28 (get_def.contextAfterFlag ctx 16) :=
      space_separator_ok _ 27 _ _ [' '] rest (by decide) (by decide) hrest rfl
    exact x3.seq_ok (x3.seq_ok hlit (x3.onField_ok (x3.optional_ok hflag)))
      (x3.onField_ok (x3.optional_ok (x3.seq_ok h2 hP)))
  · refine ⟨rfl, fun rest path pos1 c1 hrest hP => ?_⟩
    have hlit : x3.lit get_.name (("get --datastore " ++ "startup" ++ " ").toList ++ rest) 0 ctx
        get_.init = .ok get_.init 3 ctx := rfl
    have hflag := get_def.datastoreFlag_ok ("startup ".toList ++ rest) ctx
      DatastoreTarget.Operational 7 DatastoreTarget.Startup rfl rfl
    have h2 : space_separator (("get --datastore " ++ "startup" ++ " ").toList ++ rest) 23
        (get_def.contextAfterFlag ctx 16) anyPath_.init
        = .ok anyPath_.init 24 (get_def.contextAfterFlag ctx 16) :=
      space_separator_ok _ 23 _ _ [' '] rest (by decide) (by decide) hrest rfl
    exact x3.seq_ok (x3.seq_ok hlit (x3.onField_ok (x3.optional_ok hflag)))
      (x3.onField_ok (x3.optional_ok (x3.seq_ok h2 hP)))
  · refine ⟨rfl, fun rest path pos1 c1 hrest hP => ?_⟩
    have hlit : x3.lit get_.name (("get --datastore " ++ "running" ++ " ").toList ++ rest) 0 ctx
        get_.init = .ok get_.init 3 ctx := rfl
    have hflag := get_def.datastoreFlag_ok ("running ".toList ++ rest) ctx
      DatastoreTarget.Operational 7 DatastoreTarget.Running rfl rfl
    have h2 : space_separator (("get --datastore " ++ "running" ++ " ").toList ++ rest) 23
        (get_def.contextAfterFlag ctx 16) anyPath_.init
        = .ok anyPath_.init 24 (get_def.contextAfterFlag ctx 16) :=
      space_separator_ok _ 23 _ _ [' '] rest (by decide) (by decide) hrest rfl
    exact x3.seq_ok (x3.seq_ok hlit (x3.onField_ok (x3.optional_ok hflag)))
      (x3.onField_ok (x3.optional_ok (x3.seq_ok h2 hP)))

/-- Witness of the amended C5: "get --datastore running /mod:cont" over the sample
schema yields the target `Running` and the path `/mod:cont`. -/
theorem get_double_dash_datastore_witness :
    get_def SubGrammars.sample "get --datastore running /mod:cont".toList 0 ParserContext.fresh
        get_.init
      = .ok ⟨some DatastoreTarget.Running, some (anyPath_.data sampleContainerPath)⟩ 33
          { get_def.contextAfterFlag ParserContext.fresh 16 with
            m_curPath := sampleContainerPath } :=
  (get_double_dash_datastore SubGrammars.sample "running" DatastoreTarget.Running (by decide)
    ParserContext.fresh).2 "/mod:cont".toList (anyPath_.data sampleContainerPath) 33
    { get_def.contextAfterFlag ParserContext.fresh 16 with m_curPath := sampleContainerPath }
    rfl rfl

/-! ## The datastore proxy -/

theorem ProxyDatastore.nestedUnder_iff (P Q : String) :
    ProxyDatastore.nestedUnder P Q = true ↔ ∃ rest : String, rest ≠ "" ∧ Q = P ++ "/" ++ rest := by
  unfold ProxyDatastore.nestedUnder
  rw [Bool.and_eq_true, decide_eq_true_eq, List.isPrefixOf_iff_prefix]
  constructor
  · rintro ⟨⟨t, ht⟩, hlen⟩
    refine ⟨⟨t⟩, ?_, ?_⟩
    · intro h
      have ht0 : t = [] := congrArg String.data h
      subst ht0
      have hdata : (P ++ "/").data = Q.data := by simpa using ht
      have : (P ++ "/").length = Q.length := congrArg List.length hdata
      omega
    · apply String.ext
      rw [String.data_append]
      exact ht.symm
  · rintro ⟨rest, hne, rfl⟩
    refine ⟨⟨rest.data, by
      show (P ++ "/").data ++ rest.data = (P ++ "/" ++ rest).data
      exact (String.data_append _ _).symm⟩, ?_⟩
    have hrest : 0 < rest.length := by
      cases hr : rest.data with
      | nil => exact absurd (String.ext hr) hne
      | cons c cs =>
        show 0 < rest.data.length
        rw [hr]
        exact Nat.succ_pos _
    rw [String.length_append (P ++ "/") rest]
    omega

theorem ProxyDatastore.nestedUnder_append (P extra : String)
    (hextra : extra.toList.head? ≠ some '/') : ProxyDatastore.nestedUnder P (P ++ extra) = false := by
  cases h : ProxyDatastore.nestedUnder P (P ++ extra) with
  | false => rfl
  | true =>
    obtain ⟨rest, _, hrest⟩ := (ProxyDatastore.nestedUnder_iff P (P ++ extra)).mp h
    have hdata := congrArg String.data hrest
    rw [String.append_assoc, String.data_append, String.data_append] at hdata
    have hx : extra.data = ("/" ++ rest).data := List.append_cancel_left hdata
    rw [String.data_append] at hx
    exact absurd (by rw [String.toList, hx]; rfl) hextra

/-- C11: while an RPC or action input with path `P` is being composed, an operation
on path `Q` is routed to the temporary input handle when `Q` is `P` or is nested
under `P` (`P`, a path separator and further segments), and to the main handle
for every other `Q`, among them `P` with further characters appended that do not
start a new segment; so, the two handles being different, `Q` is routed to the
input handle if and only if it is equal to `P` or nested under it.  When the
proxy is idle every path is routed to the main handle. -/
theorem pickDatastore_equal_or_nested (p : ProxyDatastore) :
    (∀ input : DatastoreHandle, p.m_inputDatastore = some input →
        p.pickDatastore p.m_inputPath.m_path = input
        ∧ (∀ rest : String, rest ≠ "" →
            p.pickDatastore (p.m_inputPath.m_path ++ "/" ++ rest) = input)
        ∧ (∀ Q : String, Q ≠ p.m_inputPath.m_path →
            (∀ rest : String, rest ≠ "" → Q ≠ p.m_inputPath.m_path ++ "/" ++ rest) →
            p.pickDatastore Q = p.m_datastore)
        ∧ (∀ extra : String, extra ≠ "" → extra.toList.head? ≠ some '/' →
            p.pickDatastore (p.m_inputPath.m_path ++ extra) = p.m_datastore)
        ∧ (input ≠ p.m_datastore → ∀ Q : String,
            (p.pickDatastore Q = input ↔
              Q = p.m_inputPath.m_path
                ∨ ∃ rest : String, rest ≠ "" ∧ Q = p.m_inputPath.m_path ++ "/" ++ rest)))
    ∧ (p.state = SessionState.Idle → ∀ Q : String, p.pickDatastore Q = p.m_datastore) := by
  constructor
  · intro input hcomp
    have hyes : ∀ Q : String,
        (Q = p.m_inputPath.m_path ∨ ∃ rest : String, rest ≠ "" ∧ Q = p.m_inputPath.m_path ++ "/" ++ rest) →
        p.pickDatastore Q = input := by
      intro Q hQ
      have hc : (decide (Q = p.m_inputPath.m_path)
          || ProxyDatastore.nestedUnder p.m_inputPath.m_path Q) = true := by
        rcases hQ with h | h
        · simp [h]
        · simp [(ProxyDatastore.nestedUnder_iff _ _).mpr h]
      simp only [ProxyDatastore.pickDatastore, hcomp, hc, if_true]
    have hno : ∀ Q : String, Q ≠ p.m_inputPath.m_path →
        ProxyDatastore.nestedUnder p.m_inputPath.m_path Q = false →
        p.pickDatastore Q = p.m_datastore := by
      intro Q hne hn
      simp [ProxyDatastore.pickDatastore, hcomp, hne, hn]
    have hnest : ∀ Q : String,
        (∀ rest : String, rest ≠ "" → Q ≠ p.m_inputPath.m_path ++ "/" ++ rest) →
        ProxyDatastore.nestedUnder p.m_inputPath.m_path Q = false := by
      intro Q hQ
      cases h : ProxyDatastore.nestedUnder p.m_inputPath.m_path Q with
      | false => rfl
      | true =>
        obtain ⟨rest, hr, he⟩ := (ProxyDatastore.nestedUnder_iff _ _).mp h
        exact absurd he (hQ rest hr)
    refine ⟨hyes _ (Or.inl rfl), fun rest hr => hyes _ (Or.inr ⟨rest, hr, rfl⟩),
      fun Q hne hQ => hno Q hne (hnest Q hQ), ?_, ?_⟩
    · intro extra hne hhead
      refine hno _ ?_ (ProxyDatastore.nestedUnder_append _ _ hhead)
      intro h
      have hlen := congrArg String.length h
      rw [String.length_append] at hlen
      have : 0 < extra.length := by
        cases hr : extra.data with
        | nil => exact absurd (String.ext hr) hne
        | cons c cs =>
          show 0 < extra.data.length
          rw [hr]
          exact Nat.succ_pos _
      omega
    · intro hdiff Q
      constructor
      · intro hpick
        by_cases h1 : Q = p.m_inputPath.m_path
        · exact Or.inl h1
        · right
          cases h : ProxyDatastore.nestedUnder p.m_inputPath.m_path Q with
          | false =>
            rw [hno Q h1 h] at hpick
            exact absurd hpick.symm hdiff
          | true => exact (ProxyDatastore.nestedUnder_iff _ _).mp h
      · exact hyes Q
  · intro hidle Q
    unfold ProxyDatastore.state at hidle
    cases hin : p.m_inputDatastore with
    | none => simp only [ProxyDatastore.pickDatastore, hin]
    | some h =>
      rw [hin] at hidle
      cases hp : p.m_inputPath <;> simp [hp] at hidle

/-- Witness of C11: while `/mod:rpc` is being composed, `/mod:rpc/input/x` is routed
to the temporary handle 1, and `/other:path` and `/mod:rpcx` to the main
handle 0. -/
theorem pickDatastore_equal_or_nested_witness :
    ProxyDatastore.sample.pickDatastore "/mod:rpc/input/x" = 1
    ∧ ProxyDatastore.sample.pickDatastore "/other:path" = 0
    ∧ ProxyDatastore.sample.pickDatastore "/mod:rpcx" = 0 :=
  ⟨((pickDatastore_equal_or_nested ProxyDatastore.sample).1 1 rfl).2.1 "input/x" (by decide),
   ((pickDatastore_equal_or_nested ProxyDatastore.sample).1 1 rfl).2.2.1 "/other:path"
      (by decide)
      (fun rest _ h => by
        have h2 := congrArg String.data h
        rw [String.data_append] at h2
        cases h2),
   ((pickDatastore_equal_or_nested ProxyDatastore.sample).1 1 rfl).2.2.2.1 "x" (by decide)
      (by decide)⟩

/-- C12: in every proxy state in which an RPC or action input is being composed,
`initiateRpc` and `initiateAction` both fail, and the proxy after the failed call
is the proxy before it: the same composing variant and path, the same temporary
input handle. -/
theorem initiate_while_composing_fails (p : ProxyDatastore) (input : DatastoreHandle)
    (path : String) (hcomp : p.m_inputDatastore = some input) :
    (p.initiateRpc path).1 = .error ProxyError.alreadyComposing
    ∧ (p.initiateRpc path).2 = p
    ∧ (p.initiateAction path).1 = .error ProxyError.alreadyComposing
    ∧ (p.initiateAction path).2 = p
    ∧ (p.initiateRpc path).2.state = p.state
    ∧ (p.initiateAction path).2.state = p.state
    ∧ (p.initiateRpc path).2.m_inputDatastore = some input
    ∧ (p.initiateAction path).2.m_inputDatastore = some input := by
  simp only [ProxyDatastore.initiateRpc, ProxyDatastore.initiateAction, hcomp, and_self]

/-- Witness of C12: a second `initiateRpc` while `/mod:rpc` is being composed. -/
theorem initiate_while_composing_fails_witness :
    (ProxyDatastore.sample.initiateRpc "/mod:other").1 = .error ProxyError.alreadyComposing
    ∧ (ProxyDatastore.sample.initiateRpc "/mod:other").2.state
        = SessionState.ComposingRpcInput "/mod:rpc" :=
  ⟨(initiate_while_composing_fails ProxyDatastore.sample 1 "/mod:other" rfl).1,
   (initiate_while_composing_fails ProxyDatastore.sample 1 "/mod:other" rfl).2.2.2.2.1⟩

/-- C13: in every proxy state `cancel` succeeds and leaves the proxy idle, with no
temporary input handle; on an idle proxy it changes nothing, and cancelling twice
is cancelling once; after `cancel` every path is routed to the main handle, and
a following `initiateRpc` succeeds and composes the input of its RPC. -/
theorem cancel_returns_to_idle (p : ProxyDatastore) :
    p.cancel.1 = .ok ()
    ∧ p.cancel.2.state = SessionState.Idle
    ∧ p.cancel.2.m_inputDatastore = none
    ∧ (p.state = SessionState.Idle → p.cancel.2 = p)
    ∧ p.cancel.2.cancel.2 = p.cancel.2
    ∧ (∀ Q : String, p.cancel.2.pickDatastore Q = p.m_datastore)
    ∧ (∀ rpcPath : String, (p.cancel.2.initiateRpc rpcPath).1 = .ok ()
        ∧ (p.cancel.2.initiateRpc rpcPath).2.state = SessionState.ComposingRpcInput rpcPath) := by
  refine ⟨rfl, rfl, rfl, ?_, rfl, fun _ => rfl, fun _ => ⟨rfl, rfl⟩⟩
  intro hidle
  unfold ProxyDatastore.state at hidle
  cases hin : p.m_inputDatastore with
  | none =>
    cases p
    simp only [ProxyDatastore.cancel]
    simp only at hin
    rw [hin]
  | some h =>
    rw [hin] at hidle
    cases hp : p.m_inputPath <;> simp [hp] at hidle

/-! ## Suggestions -/

theorem x3.spaceRun_take_isspace (l : List Char) :
    ∀ ch ∈ l.take (x3.spaceRun l), x3.isspace ch = true := by
  induction l with
  | nil => intro ch h; simp [x3.spaceRun] at h
  | cons c cs ih =>
    cases hc : x3.isspace c with
    | true =>
      have h : x3.spaceRun (c :: cs) = x3.spaceRun cs + 1 := by simp [x3.spaceRun, hc]
      rw [h, List.take_succ_cons]
      intro ch hch
      rcases List.mem_cons.mp hch with rfl | hmem
      · exact hc
      · exact ih ch hmem
    | false =>
      have h : x3.spaceRun (c :: cs) = 0 := by simp [x3.spaceRun, hc]
      rw [h]
      intro ch hch
      simp at hch

/-- C16, refuted as stated: `staticSuggestions` does consume input when the iterator
stands on white space, and the anchor is then not the current position.  In
"get - -datastore running" the flag of `get` reaches `staticSuggestions` at
offset 5, the white space after the first dash: it succeeds at offset 6 and
anchors the suggestions there. -/
theorem staticSuggestions_skips_white_space :
    staticSuggestions ["-datastore"] "get - -datastore running".toList 5 ParserContext.fresh ()
      = .ok () 6
          { ParserContext.fresh with
            m_suggestions := {Completion.mk "-datastore" " "}
            m_completionIterator := some 6 }
    ∧ get_def SubGrammars.none "get - -datastore running".toList 0 ParserContext.fresh get_.init
      = .ok ⟨some DatastoreTarget.Running, none⟩ 24
          (get_def.contextAfterFlag ParserContext.fresh 17) :=
  ⟨rfl, rfl⟩

/-- C16, amended: for every list of strings `L`, every input, position and prior
context, `staticSuggestions(L)` succeeds and consumes nothing but the white
space at the current position, which the skipper passes over: the characters it
consumes are white space, the character it stops at is not, and when the current
position is not on white space it consumes nothing.  Afterwards the suggestions
of the context are exactly the completions `(s, " ")` for `s` in `L` (a set:
duplicates collapse, and nothing of the former suggestions is kept), the
completion anchor is the position after that white space, and nothing else in
the context has changed. -/
theorem staticSuggestions_replaces {α : Type} (L : List String) (input : Input) (pos : Nat)
    (ctx : ParserContext) (attr : α) :
    ∃ c, staticSuggestions L input pos ctx attr
          = .ok attr (pos + x3.spaceRun (input.drop pos)) c
      ∧ (∀ x : Completion, x ∈ c.m_suggestions ↔ ∃ s ∈ L, x = Completion.mk s " ")
      ∧ c.m_completionIterator = some (pos + x3.spaceRun (input.drop pos))
      ∧ c = { ctx with
              m_suggestions := c.m_suggestions
              m_completionIterator := some (pos + x3.spaceRun (input.drop pos)) }
      ∧ (∀ ch ∈ (input.drop pos).take (x3.spaceRun (input.drop pos)), x3.isspace ch = true)
      ∧ x3.spaceRun (input.drop (pos + x3.spaceRun (input.drop pos))) = 0
      ∧ (x3.spaceRun (input.drop pos) = 0 →
          staticSuggestions L input pos ctx attr = .ok attr pos c
          ∧ c.m_completionIterator = some pos) := by
  refine ⟨_, rfl, ?_, rfl, rfl, x3.spaceRun_take_isspace _, x3.spaceRun_skip_over input pos, ?_⟩
  · intro x
    simp only [List.mem_toFinset, List.mem_map]
    constructor
    · rintro ⟨s, hs, rfl⟩
      exact ⟨s, hs, rfl⟩
    · rintro ⟨s, hs, rfl⟩
      exact ⟨s, hs, rfl⟩
  · intro h
    simp only [staticSuggestions, x3.epsAction, x3.skip_over, h, Nat.add_zero, and_self]

/-- Witness of the amended C16: at offset 4 of "get - -datastore running", which is
not white space, nothing is consumed and the anchor is offset 4. -/
theorem staticSuggestions_replaces_witness :
    ∃ c, (staticSuggestions ["-datastore"] "get - -datastore running".toList 4
            ParserContext.fresh () = .ok () 4 c
        ∧ c.m_completionIterator = some 4) := by
  obtain ⟨c, _, _, _, _, _, _, h⟩ :=
    staticSuggestions_replaces ["-datastore"] "get - -datastore running".toList 4
      ParserContext.fresh ()
  exact ⟨c, h rfl⟩

theorem x3.symbolsFind_format_table (rest : List Char) :
    x3.symbolsFind format_table rest
      = if x3.startsWith "json".toList rest then some (4, DataFormat.Json)
        else if x3.startsWith "xml".toList rest then some (3, DataFormat.Xml)
        else none := by
  simp only [format_table, x3.symbolsFind]
  generalize x3.startsWith "json".toList rest = b1
  generalize x3.startsWith "xml".toList rest = b2
  cases b1 <;> cases b2 <;> rfl

theorem x3.startsWith_xml_not_json (rest : List Char)
    (h : x3.startsWith "xml".toList rest = true) : x3.startsWith "json".toList rest = false := by
  cases rest with
  | nil => rfl
  | cons c cs =>
    have hc : c = 'x' := by
      have h' : ('x' == c && x3.startsWith "ml".toList cs) = true := h
      rw [Bool.and_eq_true, beq_iff_eq] at h'
      exact h'.1.symm
    subst hc
    rfl

/-- C17, refuted as stated: on a failure `dump_args` does not leave the position
where it started when that position is on white space: the table lookup skips
the white space first and the iterator stays behind it.  On "  yaml" from
offset 0 it returns `false` at offset 2; the anchor of the suggestions is
offset 0. -/
theorem dump_args_failure_after_white_space :
    dump_args "  yaml".toList 0 ParserContext.fresh dump_.init
      = .fail dump_.init 2
          { ParserContext.fresh with
            m_suggestions := {Completion.mk "xml" "", Completion.mk "json" ""}
            m_completionIterator := some 0
            m_errorMsg := "Expected a data format (xml, json) here:" } :=
  rfl

/-- C17, amended: for every input and starting context, after `dump_args` has run the
suggestions of the context are exactly `xml` and `json` and the completion anchor
is the position at which `dump_args` started, whatever the outcome.  The token
is looked up after the white space, if any, at that position: the outcome is
success with `Xml`, past the token, when `xml` is there; success with `Json`
when `json` is there; and otherwise `false`, with the attribute untouched and
the position left after that white space, which is the position at which
`dump_args` started when it is not on white space. -/
theorem dump_args_suggestions (input : Input) (pos : Nat) (ctx : ParserContext) (attr : dump_) :
    (dump_args input pos ctx attr).ctx.m_suggestions
        = {Completion.mk "xml" "", Completion.mk "json" ""}
    ∧ (dump_args input pos ctx attr).ctx.m_completionIterator = some pos
    ∧ (x3.startsWith "xml".toList (input.drop (pos + x3.spaceRun (input.drop pos))) = true →
        ∃ c, dump_args input pos ctx attr
          = .ok ⟨DataFormat.Xml⟩ (pos + x3.spaceRun (input.drop pos) + 3) c)
    ∧ (x3.startsWith "json".toList (input.drop (pos + x3.spaceRun (input.drop pos))) = true →
        ∃ c, dump_args input pos ctx attr
          = .ok ⟨DataFormat.Json⟩ (pos + x3.spaceRun (input.drop pos) + 4) c)
    ∧ (x3.startsWith "xml".toList (input.drop (pos + x3.spaceRun (input.drop pos))) = false →
        x3.startsWith "json".toList (input.drop (pos + x3.spaceRun (input.drop pos))) = false →
        ∃ c, dump_args input pos ctx attr = .fail attr (pos + x3.spaceRun (input.drop pos)) c)
    ∧ (x3.spaceRun (input.drop pos) = 0 →
        x3.startsWith "xml".toList (input.drop pos) = false →
        x3.startsWith "json".toList (input.drop pos) = false →
        ∃ c, dump_args input pos ctx attr = .fail attr pos c) := by
  have main : (dump_args input pos ctx attr).ctx.m_suggestions
        = {Completion.mk "xml" "", Completion.mk "json" ""}
      ∧ (dump_args input pos ctx attr).ctx.m_completionIterator = some pos
      ∧ (x3.startsWith "xml".toList (input.drop (pos + x3.spaceRun (input.drop pos))) = true →
          ∃ c, dump_args input pos ctx attr
            = .ok ⟨DataFormat.Xml⟩ (pos + x3.spaceRun (input.drop pos) + 3) c)
      ∧ (x3.startsWith "json".toList (input.drop (pos + x3.spaceRun (input.drop pos))) = true →
          ∃ c, dump_args input pos ctx attr
            = .ok ⟨DataFormat.Json⟩ (pos + x3.spaceRun (input.drop pos) + 4) c)
      ∧ (x3.startsWith "xml".toList (input.drop (pos + x3.spaceRun (input.drop pos))) = false →
          x3.startsWith "json".toList (input.drop (pos + x3.spaceRun (input.drop pos))) = false →
          ∃ c, dump_args input pos ctx attr
            = .fail attr (pos + x3.spaceRun (input.drop pos)) c) := by
    simp only [dump_args, x3.onField, x3.symbols, x3.skip_over, x3.symbolsFind_format_table]
    cases hj : x3.startsWith "json".toList (input.drop (pos + x3.spaceRun (input.drop pos))) with
    | true =>
      have hx : x3.startsWith "xml".toList (input.drop (pos + x3.spaceRun (input.drop pos)))
          = false := by
        cases h : x3.startsWith "xml".toList
            (input.drop (pos + x3.spaceRun (input.drop pos))) with
        | false => rfl
        | true => rw [x3.startsWith_xml_not_json _ h] at hj; exact absurd hj (by decide)
      rw [hx]
      exact ⟨rfl, rfl, fun h => absurd h (by decide), fun _ => ⟨_, rfl⟩,
        fun _ h => absurd h (by decide)⟩
    | false =>
      cases hx : x3.startsWith "xml".toList
          (input.drop (pos + x3.spaceRun (input.drop pos))) with
      | true =>
        exact ⟨rfl, rfl, fun _ => ⟨_, rfl⟩, fun h => absurd h (by decide),
          fun h => absurd h (by decide)⟩
      | false =>
        exact ⟨rfl, rfl, fun h => absurd h (by decide), fun h => absurd h (by decide),
          fun _ _ => ⟨_, rfl⟩⟩
  refine ⟨main.1, main.2.1, main.2.2.1, main.2.2.2.1, main.2.2.2.2, fun h0 hx hj => ?_⟩
  have h5 := main.2.2.2.2
  rw [h0, Nat.add_zero] at h5
  exact h5 hx hj

/-- Witness of the amended C17: "json" after "dump " succeeds with `Json`, "yaml" fails
with the position left at 5. -/
theorem dump_args_suggestions_witness :
    (∃ c, dump_args "dump json".toList 5 ParserContext.fresh dump_.init
        = .ok ⟨DataFormat.Json⟩ 9 c)
    ∧ (∃ c, dump_args "dump yaml".toList 5 ParserContext.fresh dump_.init
        = .fail dump_.init 5 c) :=
  ⟨(dump_args_suggestions "dump json".toList 5 ParserContext.fresh dump_.init).2.2.2.1 rfl,
   (dump_args_suggestions "dump yaml".toList 5 ParserContext.fresh dump_.init).2.2.2.2.2 rfl rfl
     rfl⟩

/-! ## The inner grammar of `copy_args` -/

theorem x3.symbolsFind_datastore (rest : List Char) :
    x3.symbolsFind datastore rest
      = if x3.startsWith "startup".toList rest then some (7, Datastore.Startup)
        else if x3.startsWith "running".toList rest then some (7, Datastore.Running)
        else none := by
  simp only [datastore, x3.symbolsFind]
  generalize x3.startsWith "startup".toList rest = b1
  generalize x3.startsWith "running".toList rest = b2
  cases b1 <;> cases b2 <;> rfl

/-- The outcomes of the inner grammar of `copy_args`: an exception, or success with
the source and the destination both looked up in the input, the source after the
white space, if any, at the start.  Neither depends on the attribute or on the
saved iterator the grammar is started with. -/
theorem copy_args_grammar_cases (input : Input) (begin : Nat) (ctx : ParserContext) :
    (∃ e c, ∀ (a : copy_) (it : Nat), copy_args.grammar input begin ctx (a, it) = .raise e c)
    ∨ (∃ n1 v1 k n2 v2 c,
        x3.symbolsFind datastore (input.drop (x3.skip_over input begin)) = some (n1, v1)
        ∧ x3.spaceRun (input.drop (x3.skip_over input begin + n1)) = k + 1
        ∧ x3.symbolsFind datastore (input.drop (x3.skip_over input begin + n1 + (k + 1)))
            = some (n2, v2)
        ∧ ∀ (a : copy_) (it : Nat), copy_args.grammar input begin ctx (a, it)
            = .ok (⟨v1, v2⟩, x3.skip_over input begin + n1 + (k + 1))
                (x3.skip_over input begin + n1 + (k + 1) + n2) c) := by
  have hs0 := x3.skip_over_skip_over input begin
  cases h1 : x3.symbolsFind datastore (input.drop (x3.skip_over input begin)) with
  | none =>
    left
    refine ⟨Exn.expectation_failure (x3.skip_over input begin) "source datastore",
      (datastoreSuggestions input begin ctx ()).ctx, fun a it => ?h⟩
    case h =>
      simp only [copy_args.grammar, x3.seqExpect, x3.seq, datastoreSuggestions,
        staticSuggestions, x3.epsAction, x3.expect, x3.onField, copy_source, x3.rule,
        x3.symbols, hs0, h1]
      rfl
  | some r1 =>
    obtain ⟨n1, v1⟩ := r1
    cases h2 : x3.spaceRun (input.drop (x3.skip_over input begin + n1)) with
    | zero =>
      left
      refine ⟨Exn.expectation_failure (x3.skip_over input begin + n1) space_separator_name,
        (datastoreSuggestions input begin ctx ()).ctx, fun a it => ?h⟩
      case h =>
        simp only [copy_args.grammar, x3.seqExpect, x3.seq, datastoreSuggestions,
          staticSuggestions, x3.epsAction, x3.expect, x3.onField, copy_source, x3.rule,
          x3.symbols, hs0, h1, space_separator, h2]
        rfl
    | succ k =>
      have hs2 := x3.skip_over_past_space input (x3.skip_over input begin + n1) (k + 1) h2
      cases h3 : x3.symbolsFind datastore
          (input.drop (x3.skip_over input begin + n1 + (k + 1))) with
      | none =>
        left
        refine ⟨Exn.expectation_failure (x3.skip_over input begin + n1 + (k + 1))
            "destination datastore",
          { ctx with
            m_suggestions := (["running", "startup"].map fun s => Completion.mk s " ").toFinset
            m_completionIterator := some (x3.skip_over input begin + n1 + (k + 1)) },
          fun a it => ?h⟩
        case h =>
          simp only [copy_args.grammar, x3.seqExpect, x3.seq, datastoreSuggestions,
            staticSuggestions, x3.epsAction, x3.expect, x3.onField, copy_source,
            copy_destination, x3.rule, x3.symbols, hs0, h1, space_separator, h2, hs2, h3]
      | some r2 =>
        obtain ⟨n2, v2⟩ := r2
        right
        refine ⟨n1, v1, k, n2, v2,
          { ctx with
            m_suggestions := (["running", "startup"].map fun s => Completion.mk s " ").toFinset
            m_completionIterator := some (x3.skip_over input begin + n1 + (k + 1)) },
          rfl, h2, h3, fun a it => ?h⟩
        case h =>
          simp only [copy_args.grammar, x3.seqExpect, x3.seq, datastoreSuggestions,
            staticSuggestions, x3.epsAction, x3.expect, x3.onField, copy_source,
            copy_destination, x3.rule, x3.symbols, hs0, h1, space_separator, h2, hs2, h3]

/-- C20: the inner grammar of `copy_args` never returns `false`: it raises, or it
succeeds with the source and the destination both looked up in the input (a
datastore name, after the white space the skipper passes over at the start, then
whitespace and a datastore name).  So `copy_args` returns `false` exactly when
the grammar has succeeded and the two datastores parsed from the input are
equal, and its outcome does not depend on the attribute it was given: no stale
or default value is ever compared. -/
theorem copy_args_inner_grammar (input : Input) (begin : Nat) (ctx : ParserContext)
    (attr : copy_) :
    (copy_args.grammar input begin ctx (attr, begin)).isFail = false
    ∧ (∀ st pos c, copy_args.grammar input begin ctx (attr, begin) = .ok st pos c →
        ∃ n1 v1 k n2 v2,
          x3.symbolsFind datastore (input.drop (x3.skip_over input begin)) = some (n1, v1)
          ∧ x3.spaceRun (input.drop (x3.skip_over input begin + n1)) = k + 1
          ∧ x3.symbolsFind datastore (input.drop (x3.skip_over input begin + n1 + (k + 1)))
              = some (n2, v2)
          ∧ st = (⟨v1, v2⟩, x3.skip_over input begin + n1 + (k + 1))
          ∧ pos = x3.skip_over input begin + n1 + (k + 1) + n2)
    ∧ ((copy_args input begin ctx attr).isFail = true
        ↔ ∃ st pos c, copy_args.grammar input begin ctx (attr, begin) = .ok st pos c
            ∧ st.1.m_source = st.1.m_destination)
    ∧ (∀ attr' : copy_, copy_args input begin ctx attr' = copy_args input begin ctx attr)
    ∧ x3.skip_over input begin = begin + x3.spaceRun (input.drop begin) := by
  rcases copy_args_grammar_cases input begin ctx with ⟨e, c, h⟩ | ⟨n1, v1, k, n2, v2, c, h1, h2, h3, h⟩
  · refine ⟨by rw [h]; rfl, ?_, ?_, ?_, rfl⟩
    · intro st pos c' hok
      rw [h] at hok
      exact PResult.noConfusion hok
    · constructor
      · intro hf
        simp only [copy_args, h] at hf
        cases e <;> simp [PResult.isFail] at hf
      · rintro ⟨st, pos, c', hok, _⟩
        rw [h] at hok
        exact PResult.noConfusion hok
    · intro attr'
      simp only [copy_args, h]
  · refine ⟨by rw [h]; rfl, ?_, ?_, ?_, rfl⟩
    · intro st pos c' hok
      rw [h] at hok
      simp only [PResult.ok.injEq] at hok
      exact ⟨n1, v1, k, n2, v2, h1, h2, h3, hok.1.symm, hok.2.1.symm⟩
    · constructor
      · intro hf
        refine ⟨_, _, _, h attr begin, ?_⟩
        simp only [copy_args, h] at hf
        by_cases heq : v1 = v2
        · exact heq
        · simp [heq, PResult.isFail] at hf
      · rintro ⟨st, pos, c', hok, heq⟩
        rw [h] at hok
        simp only [PResult.ok.injEq] at hok
        rw [← hok.1] at heq
        simp only [copy_args, h]
        simp only at heq
        simp [heq, PResult.isFail]
    · intro attr'
      simp only [copy_args, h]

/-- Witness of C20: on "running running" the grammar succeeds and `copy_args`
returns `false`; on "running startup" it returns `true`. -/
theorem copy_args_inner_grammar_witness :
    (copy_args "running running".toList 0 ParserContext.fresh copy_.init).isFail = true
    ∧ (copy_args "running startup".toList 0 ParserContext.fresh copy_.init).isFail = false :=
  ⟨(copy_args_inner_grammar "running running".toList 0 ParserContext.fresh copy_.init).2.2.1.mpr
      ⟨_, _, _, rfl, rfl⟩,
   rfl⟩

/-- C19, refuted as stated: a second token that is neither `running` nor `startup`
but starts with one of them is accepted, the table lookup matching a prefix:
on "running startupx" `copy_args` succeeds at offset 15, with no failure and no
message.  And on a text that starts with white space the source is looked up
after it: "  running startup" is accepted, and on "  bogus" the failure is
anchored at offset 2, not at the start of the text. -/
theorem copy_args_accepts_token_by_its_start :
    copy_args "running startupx".toList 0 ParserContext.fresh copy_.init
      = .ok ⟨Datastore.Running, Datastore.Startup⟩ 15
          { ParserContext.fresh with
            m_suggestions := {Completion.mk "running" " ", Completion.mk "startup" " "}
            m_completionIterator := some 8 }
    ∧ (copy_args "  running startup".toList 0 ParserContext.fresh copy_.init).isOk = true
    ∧ copy_args "  bogus".toList 0 ParserContext.fresh copy_.init
      = .raise (.expectation_failure 2 "source datastore")
          { ParserContext.fresh with
            m_suggestions := {Completion.mk "running" " ", Completion.mk "startup" " "}
            m_completionIterator := some 2
            m_errorMsg := "Expected source datastore here:" } := by
  refine ⟨?_, rfl, ?_⟩
  · have h : ({Completion.mk "running" " ", Completion.mk "startup" " "} : Finset Completion)
        = (["running", "startup"].map fun s => Completion.mk s " ").toFinset := by decide
    rw [h]
    rfl
  · have h : ({Completion.mk "running" " ", Completion.mk "startup" " "} : Finset Completion)
        = (["running", "startup"].map fun s => Completion.mk s " ").toFinset := by decide
    rw [h]
    rfl

/-- C19, amended: for every argument text given to `copy_args`, looked at after the
white space, if any, at its start: if it starts with neither `running` nor
`startup`, `copy_args` raises an expectation failure there and the error message
of the context is "Expected source datastore here:"; if it starts with a
datastore name followed by whitespace and then a token that starts with neither
`running` nor `startup`, `copy_args` raises at the start of that token and the
message is "Expected destination datastore here:".  When the text does not
start with white space, "there" is the start of the text. -/
theorem copy_args_expectation_messages (input : Input) (begin : Nat) (ctx : ParserContext)
    (attr : copy_) :
    (x3.startsWith "running".toList (input.drop (begin + x3.spaceRun (input.drop begin)))
        = false →
      x3.startsWith "startup".toList (input.drop (begin + x3.spaceRun (input.drop begin)))
        = false →
      ∃ c, copy_args input begin ctx attr
          = .raise (.expectation_failure (begin + x3.spaceRun (input.drop begin))
              "source datastore") c
        ∧ c.m_errorMsg = "Expected source datastore here:")
    ∧ (∀ (src : String) (v : Datastore) (ws tok : List Char),
        (src, v) ∈ datastore →
        input.drop (begin + x3.spaceRun (input.drop begin)) = src.toList ++ (ws ++ tok) →
        ws ≠ [] → (∀ c ∈ ws, x3.isspace c = true) → x3.spaceRun tok = 0 →
        x3.startsWith "running".toList tok = false →
        x3.startsWith "startup".toList tok = false →
        ∃ c, copy_args input begin ctx attr
            = .raise (.expectation_failure
                (begin + x3.spaceRun (input.drop begin) + src.length + ws.length)
                "destination datastore") c
          ∧ c.m_errorMsg = "Expected destination datastore here:")
    ∧ (x3.spaceRun (input.drop begin) = 0 →
        x3.startsWith "running".toList (input.drop begin) = false →
        x3.startsWith "startup".toList (input.drop begin) = false →
        ∃ c, copy_args input begin ctx attr
            = .raise (.expectation_failure begin "source datastore") c
          ∧ c.m_errorMsg = "Expected source datastore here:") := by
  have hs0 := x3.skip_over_skip_over input begin
  have hfirst : x3.startsWith "running".toList (input.drop (x3.skip_over input begin)) = false →
      x3.startsWith "startup".toList (input.drop (x3.skip_over input begin)) = false →
      ∃ c, copy_args input begin ctx attr
          = .raise (.expectation_failure (x3.skip_over input begin) "source datastore") c
        ∧ c.m_errorMsg = "Expected source datastore here:" := by
    intro hr hs
    have hsym : x3.symbolsFind datastore (input.drop (x3.skip_over input begin)) = none := by
      rw [x3.symbolsFind_datastore, hr, hs]; rfl
    simp only [copy_args, copy_args.grammar, x3.seqExpect, x3.seq, datastoreSuggestions,
      staticSuggestions, x3.epsAction, x3.expect, x3.onField, copy_source, x3.rule, x3.symbols,
      hs0, hsym]
    exact ⟨_, rfl, rfl⟩
  refine ⟨hfirst, ?_, ?_⟩
  · intro src v ws tok hmem hin hne hws htok hr hs
    change input.drop (x3.skip_over input begin) = src.toList ++ (ws ++ tok) at hin
    change ∃ c, copy_args input begin ctx attr
        = .raise (.expectation_failure (x3.skip_over input begin + src.length + ws.length)
            "destination datastore") c
      ∧ c.m_errorMsg = "Expected destination datastore here:"
    have hsrc : x3.symbolsFind datastore (input.drop (x3.skip_over input begin))
        = some (src.length, v) := by
      simp only [datastore, List.mem_cons, List.mem_singleton, List.not_mem_nil, or_false,
        Prod.mk.injEq] at hmem
      rw [hin]
      rcases hmem with ⟨rfl, rfl⟩ | ⟨rfl, rfl⟩ <;> rfl
    have hin2 : input.drop (x3.skip_over input begin + src.length) = ws ++ tok :=
      List.drop_past input (x3.skip_over input begin) src.toList (ws ++ tok) hin
    have hin3 : input.drop (x3.skip_over input begin + src.length + ws.length) = tok :=
      List.drop_past input (x3.skip_over input begin + src.length) ws tok hin2
    have hsym : x3.symbolsFind datastore
        (input.drop (x3.skip_over input begin + src.length + ws.length)) = none := by
      rw [hin3, x3.symbolsFind_datastore, hr, hs]
      rfl
    have hsp : ∀ (α : Type) (a : α) (c : ParserContext),
        space_separator input (x3.skip_over input begin + src.length) c a
          = .ok a (x3.skip_over input begin + src.length + ws.length) c :=
      fun α a c =>
        space_separator_ok input (x3.skip_over input begin + src.length) c a ws tok hne hws htok
          hin2
    have hs2 := x3.skip_over_of_drop input (x3.skip_over input begin + src.length + ws.length)
      tok hin3 htok
    simp only [copy_args, copy_args.grammar, x3.seqExpect, x3.seq, datastoreSuggestions,
      staticSuggestions, x3.epsAction, x3.expect, x3.onField, copy_source, copy_destination,
      x3.rule, x3.symbols, hs0, hsrc, hsp, hs2, hsym]
    exact ⟨_, rfl, rfl⟩
  · intro h0 hr hs
    have hb : x3.skip_over input begin = begin := x3.skip_over_of_spaceRun input begin h0
    rw [hb] at hfirst
    exact hfirst hr hs

/-- Witness of the amended C19: "bogus" fails at the source, "running operational" at
the destination, offset 8. -/
theorem copy_args_expectation_messages_witness :
    (∃ c, copy_args "bogus".toList 0 ParserContext.fresh copy_.init
        = .raise (.expectation_failure 0 "source datastore") c
      ∧ c.m_errorMsg = "Expected source datastore here:")
    ∧ (∃ c, copy_args "running operational".toList 0 ParserContext.fresh copy_.init
        = .raise (.expectation_failure 8 "destination datastore") c
      ∧ c.m_errorMsg = "Expected destination datastore here:") :=
  ⟨(copy_args_expectation_messages "bogus".toList 0 ParserContext.fresh copy_.init).1 rfl rfl,
   (copy_args_expectation_messages "running operational".toList 0 ParserContext.fresh
      copy_.init).2.1 "running" Datastore.Running [' '] "operational".toList (by decide) rfl
      (by decide) (by decide) rfl rfl rfl⟩

/-! ## Error messages of soft failures -/

theorem move_args_destination_soft_failure (G : SubGrammars) (position : yang.move.Position)
    (input : Input) (begin : Nat) (c : ParserContext) (attr : move_)
    (hf : (move_args.destination G position input begin c attr).isFail = true) :
    (move_args.destination G position input begin c attr).ctx.m_errorMsg
      = "Expected a destination here:" := by
  have key : ∀ r : PResult move_, r = move_args.destination G position input begin c attr →
      r.isFail = true → r.ctx.m_errorMsg = "Expected a destination here:" := by
    intro r hr
    simp only [move_args.destination] at hr
    repeat' split at hr
    all_goals
      subst hr
      intro h
      first
        | rfl
        | exact Bool.noConfusion h
  exact key _ rfl hf

theorem move_args_soft_failure (G : SubGrammars)
    (input : Input) (begin : Nat) (ctx : ParserContext) (attr : move_)
    (hf : (move_args G input begin ctx attr).isFail = true) :
    (move_args G input begin ctx attr).ctx.m_errorMsg ∈
      ["Expected source path here:",
       "Expected a move position (begin, end, before, after) here:",
       "Expected a destination here:"] := by
  have key : ∀ r : PResult move_, r = move_args G input begin ctx attr →
      r.isFail = true → r.ctx.m_errorMsg ∈
        ["Expected source path here:",
         "Expected a move position (begin, end, before, after) here:",
         "Expected a destination here:"] := by
    intro r hr
    simp only [move_args] at hr
    repeat' split at hr
    all_goals
      subst hr
      intro h
      first
        | exact Bool.noConfusion h
        | exact List.mem_cons_self _ _
        | exact List.mem_cons_of_mem _ (List.mem_cons_self _ _)
        | (rw [move_args_destination_soft_failure _ _ _ _ _ _ h]; decide)
  exact key _ rfl hf

theorem copy_args_soft_failure (input : Input) (begin : Nat) (ctx : ParserContext) (attr : copy_)
    (hf : (copy_args input begin ctx attr).isFail = true) :
    (copy_args input begin ctx attr).ctx.m_errorMsg
      = "Source datastore and destination datastore can't be the same." := by
  rcases copy_args_grammar_cases input begin ctx with ⟨e, c, h⟩ | ⟨n1, v1, k, n2, v2, c, _, _, _, h⟩
  · simp only [copy_args, h] at hf
    cases e <;> simp [PResult.isFail] at hf
  · simp only [copy_args, h] at hf ⊢
    by_cases heq : v1 = v2
    · simp [heq, PResult.ctx]
    · simp [heq, PResult.isFail] at hf

theorem dump_args_soft_failure (input : Input) (begin : Nat) (ctx : ParserContext) (attr : dump_)
    (hf : (dump_args input begin ctx attr).isFail = true) :
    (dump_args input begin ctx attr).ctx.m_errorMsg
      = "Expected a data format (xml, json) here:" := by
  simp only [dump_args, x3.onField, x3.symbols] at hf ⊢
  cases h : x3.symbolsFind format_table (input.drop (x3.skip_over input begin)) with
  | none => rfl
  | some r =>
    obtain ⟨n, v⟩ := r
    simp [h, PResult.isFail] at hf

/-- C14, refuted as stated: each of the three custom parse steps has a run that
returns `false` without raising and leaves an error message in the context that
was not there before. -/
theorem custom_steps_set_message_on_soft_failure :
    ((dump_args "yaml".toList 0 ParserContext.fresh dump_.init).isFail = true
      ∧ (dump_args "yaml".toList 0 ParserContext.fresh dump_.init).ctx.m_errorMsg
          = "Expected a data format (xml, json) here:"
      ∧ ParserContext.fresh.m_errorMsg = "")
    ∧ ((copy_args "running running".toList 0 ParserContext.fresh copy_.init).isFail = true
      ∧ (copy_args "running running".toList 0 ParserContext.fresh copy_.init).ctx.m_errorMsg
          = "Source datastore and destination datastore can't be the same.")
    ∧ ((move_args SubGrammars.sample "bogus".toList 0 ParserContext.fresh move_.init).isFail
          = true
      ∧ (move_args SubGrammars.sample "bogus".toList 0 ParserContext.fresh
          move_.init).ctx.m_errorMsg = "Expected source path here:") :=
  ⟨⟨rfl, rfl, rfl⟩, ⟨rfl, rfl⟩, ⟨rfl, rfl⟩⟩

/-- C14, amended: for every custom parse step of the command grammar and every input
and starting context: if the step returns `false` without raising, the error
message of the context after the step is the step's own message for that
failure, whatever it was before: the duplicate-datastore message for
`copy_args`, "Expected a data format (xml, json) here:" for `dump_args`, and one
of the three messages of `move_args`. -/
theorem custom_steps_soft_failure_message (G : SubGrammars) (input : Input) (begin : Nat)
    (ctx : ParserContext) :
    (∀ attr : copy_, (copy_args input begin ctx attr).isFail = true →
        (copy_args input begin ctx attr).ctx.m_errorMsg
          = "Source datastore and destination datastore can't be the same.")
    ∧ (∀ attr : dump_, (dump_args input begin ctx attr).isFail = true →
        (dump_args input begin ctx attr).ctx.m_errorMsg
          = "Expected a data format (xml, json) here:")
    ∧ (∀ attr : move_, (move_args G input begin ctx attr).isFail = true →
        (move_args G input begin ctx attr).ctx.m_errorMsg ∈
          ["Expected source path here:",
           "Expected a move position (begin, end, before, after) here:",
           "Expected a destination here:"]) :=
  ⟨fun attr h => copy_args_soft_failure input begin ctx attr h,
   fun attr h => dump_args_soft_failure input begin ctx attr h,
   fun attr h => move_args_soft_failure G input begin ctx attr h⟩

/-- Witness of the amended C14: `dump_args` on "yaml" with a context that already
carries a message. -/
theorem custom_steps_soft_failure_message_witness :
    (dump_args "yaml".toList 0 { ParserContext.fresh with m_errorMsg := "earlier message" }
        dump_.init).ctx.m_errorMsg = "Expected a data format (xml, json) here:" :=
  (custom_steps_soft_failure_message SubGrammars.none "yaml".toList 0
    { ParserContext.fresh with m_errorMsg := "earlier message" }).2.1 dump_.init rfl

/-! ## The ls command -/

theorem x3.alt_ok {α : Type} {p q : Parser α} {input : Input} {pos : Nat} {ctx : ParserContext}
    {attr a1 : α} {pos1 : Nat} {c1 : ParserContext}
    (hp : p input pos ctx attr = .ok a1 pos1 c1) :
    x3.alt p q input pos ctx attr = .ok a1 pos1 c1 := by
  simp only [x3.alt, hp]

theorem x3.variantAlt_ok {α β : Type} {inj : β → α} {init : β} {p : Parser β} {input : Input}
    {pos : Nat} {ctx : ParserContext} {attr : α} {b : β} {pos1 : Nat} {c1 : ParserContext}
    (hp : p input pos ctx init = .ok b pos1 c1) :
    x3.variantAlt inj init p input pos ctx attr = .ok (inj b) pos1 c1 := by
  simp only [x3.variantAlt, hp]

theorem x3.kleene_ok {β : Type} {init : β} {p : Parser β} {fuel : Nat} {input : Input}
    {pos : Nat} {ctx : ParserContext} {attr : List β} {b : β} {pos1 : Nat} {c1 : ParserContext}
    (hp : p input pos ctx init = .ok b pos1 c1) :
    x3.kleene init p (fuel + 1) input pos ctx attr
      = x3.kleene init p fuel input pos1 c1 (attr ++ [b]) := by
  simp only [x3.kleene, hp]

theorem x3.kleene_fail {β : Type} {init : β} {p : Parser β} {fuel : Nat} {input : Input}
    {pos : Nat} {ctx : ParserContext} {attr : List β} {b : β} {pos1 : Nat} {c1 : ParserContext}
    (hp : p input pos ctx init = .fail b pos1 c1) :
    x3.kleene init p (fuel + 1) input pos ctx attr = .ok attr pos1 c1 := by
  simp only [x3.kleene, hp]

theorem ls_def_recursive_path (G : SubGrammars) (rest : List Char) (ctx : ParserContext)
    (path : anyPath_) (pos1 : Nat) (c1 : ParserContext)
    (hspace : x3.spaceRun rest = 0)
    (hopt : x3.symbolsFind ls_options rest = none)
    (hP : G.anyPath ("ls --recursive ".toList ++ rest) 15 ctx anyPath_.init
      = .ok path pos1 c1) :
    ls_def G ("ls --recursive ".toList ++ rest) 0 ctx ls_.init
        = .ok ⟨[LsOption.Recursive], some path⟩ pos1 c1 := by
  have hsp : ∀ (α : Type) (a : α),
      space_separator ("ls --recursive ".toList ++ rest) 14 ctx a = .ok a 15 ctx :=
    fun α a => space_separator_ok _ 14 ctx a [' '] rest (by decide) (by decide) hspace rfl
  have hround1 : x3.seq space_separator (x3.symbols ls_options)
      ("ls --recursive ".toList ++ rest) 2 ctx LsOption.Recursive
      = .ok LsOption.Recursive 14 ctx := rfl
  have hround2 : x3.seq space_separator (x3.symbols ls_options)
      ("ls --recursive ".toList ++ rest) 14 ctx LsOption.Recursive
      = .fail LsOption.Recursive 14 ctx := by
    have hdrop : List.drop 15 ("ls --recursive ".toList ++ rest) = rest := rfl
    have hskip := x3.skip_over_of_drop ("ls --recursive ".toList ++ rest) 15 rest hdrop hspace
    simp only [x3.seq, hsp, x3.symbols, hskip, hdrop, hopt]
  have hlen : ("ls --recursive ".toList ++ rest).length + 1 = (rest.length + 14) + 1 + 1 := by
    simp [String.toList]
  have hloop : x3.kleene LsOption.Recursive (x3.seq space_separator (x3.symbols ls_options))
      (("ls --recursive ".toList ++ rest).length + 1) ("ls --recursive ".toList ++ rest) 2 ctx []
      = .ok [LsOption.Recursive] 14 ctx := by
    rw [hlen, x3.kleene_ok hround1, x3.kleene_fail hround2]
    rfl
  have hlit : x3.lit ls_.name ("ls --recursive ".toList ++ rest) 0 ctx ls_.init
      = .ok ls_.init 2 ctx := rfl
  have hpath : x3.seq space_separator
      (x3.alt (x3.variantAlt id anyPath_.init G.anyPath)
        (x3.variantAlt anyPath_.module module_.init (x3.seq G.module (x3.lit "*"))))
      ("ls --recursive ".toList ++ rest) 14 ctx anyPath_.init = .ok path pos1 c1 :=
    x3.seq_ok (hsp _ _) (x3.alt_ok (x3.variantAlt_ok hP))
  exact x3.seq_ok (x3.seq_ok hlit (x3.onField_ok hloop)) (x3.onField_ok (x3.optional_ok hpath))

theorem command_of_ls_def (G : SubGrammars) (rest : List Char) (ctx : ParserContext)
    (cattr : command_) (v : ls_) (pos1 : Nat) (c1 : ParserContext)
    (hls : ls_def G ("ls --recursive ".toList ++ rest) 0 (G.onCreateCommandSuggestions 0 ctx)
      ls_.init = .ok v pos1 c1) :
    command G ("ls --recursive ".toList ++ rest) 0 ctx cattr = .ok (command_.ls v) pos1 c1 := by
  have h1 : ∀ c a, cd_def G ("ls --recursive ".toList ++ rest) 0 c a = .fail a 0 c :=
    fun _ _ => rfl
  have h2 : ∀ c a, copy_def ("ls --recursive ".toList ++ rest) 0 c a = .fail a 0 c :=
    fun _ _ => rfl
  have h3 : ∀ c a, create_def G ("ls --recursive ".toList ++ rest) 0 c a = .fail a 0 c :=
    fun _ _ => rfl
  have h4 : ∀ c a, delete_rule_def G ("ls --recursive ".toList ++ rest) 0 c a = .fail a 0 c :=
    fun _ _ => rfl
  have h5 : ∀ c a, set_def G ("ls --recursive ".toList ++ rest) 0 c a = .fail a 0 c :=
    fun _ _ => rfl
  have h6 : ∀ c a, commit_def ("ls --recursive ".toList ++ rest) 0 c a = .fail a 0 c :=
    fun _ _ => rfl
  have h7 : ∀ c a, get_def G ("ls --recursive ".toList ++ rest) 0 c a = .fail a 0 c :=
    fun _ _ => rfl
  have hskip : x3.skip_over ("ls --recursive ".toList ++ rest) 0 = 0 := rfl
  simp only [command, command_def, x3.rule, x3.seq, createCommandSuggestions,
    createCommandSuggestions_def, x3.eps, hskip, x3.expect, command_def.verbs, x3.alternatives,
    x3.alt, x3.variantAlt, h1, h2, h3, h4, h5, h6, h7, hls]

/-- C15: when the text after "ls --recursive " starts neither with whitespace nor
with another option, and `anyPath` accepts it there, `ls` succeeds with the
options `[Recursive]` and with the path `anyPath` has parsed, at the position and
in the context `anyPath` has left, and so does the rule `command`, yielding the
Ls command; "ls" alone succeeds with no options and no path. -/
theorem ls_recursive_path (G : SubGrammars) (rest : List Char) (ctx : ParserContext)
    (path : anyPath_) (pos1 : Nat) (c1 : ParserContext)
    (hspace : x3.spaceRun rest = 0)
    (hopt : x3.symbolsFind ls_options rest = none)
    (hP : G.anyPath ("ls --recursive ".toList ++ rest) 15 ctx anyPath_.init
      = .ok path pos1 c1) :
    ls_def G ("ls --recursive ".toList ++ rest) 0 ctx ls_.init
        = .ok ⟨[LsOption.Recursive], some path⟩ pos1 c1
    ∧ (∀ (ctx0 : ParserContext) (cattr : command_), G.onCreateCommandSuggestions 0 ctx0 = ctx →
        command G ("ls --recursive ".toList ++ rest) 0 ctx0 cattr
          = .ok (command_.ls ⟨[LsOption.Recursive], some path⟩) pos1 c1)
    ∧ ls_def G "ls".toList 0 ctx ls_.init = .ok ⟨[], none⟩ 2 ctx
    ∧ ∀ (ctx0 : ParserContext) (cattr : command_),
        command G "ls".toList 0 ctx0 cattr
          = .ok (command_.ls ⟨[], none⟩) 2 (G.onCreateCommandSuggestions 0 ctx0) := by
  refine ⟨ls_def_recursive_path G rest ctx path pos1 c1 hspace hopt hP, ?_, rfl,
    fun _ _ => rfl⟩
  intro ctx0 cattr hctx
  subst hctx
  exact command_of_ls_def G rest ctx0 cattr _ pos1 c1
    (ls_def_recursive_path G rest _ path pos1 c1 hspace hopt hP)

/-- Witness of C15: "ls --recursive /mod:cont" over the sample schema. -/
theorem ls_recursive_path_witness :
    command SubGrammars.sample "ls --recursive /mod:cont".toList 0 ParserContext.fresh
        command_.quit
      = .ok (command_.ls ⟨[LsOption.Recursive], some (anyPath_.data sampleContainerPath)⟩) 24
          { ParserContext.fresh with m_curPath := sampleContainerPath } :=
  (ls_recursive_path SubGrammars.sample "/mod:cont".toList ParserContext.fresh
    (anyPath_.data sampleContainerPath) 24
    { ParserContext.fresh with m_curPath := sampleContainerPath } rfl rfl rfl).2.1
    ParserContext.fresh command_.quit rfl

/-! ## The scratch list path of a relative move -/

theorem List.dropLast_append_singleton_length {β : Type} (l : List β) (x : β) (h : l ≠ []) :
    (l.dropLast ++ [x]).length = l.length := by
  cases l with
  | nil => exact absurd rfl h
  | cons a as => simp

/-- C18: when `move_args` reaches the relative branch with a source whose last
segment is a list instance (which the source parser has left in the current path
of the context, so that this path is not empty), the scratch list path it stores
in the context before the destination keys are parsed has as many segments as
the current data path, agrees with it on every segment but the last (the keys of
list instances earlier in the path are kept), and its last segment is the
key-less list segment with the module prefix and the list name of the last
segment of the source. -/
theorem move_args_scratch_list_path (G : SubGrammars) (input : Input) (begin : Nat)
    (ctx : ParserContext) (attr : move_) (src : dataPath_) (pos1 : Nat) (c1 : ParserContext)
    (ws rest : List Char) (kw : String) (v : yang.move.Position) (last : dataNode_)
    (name : String) (keys : ListInstance)
    (hsrc : x3.alt G.listInstancePath G.leafListElementPath input begin ctx attr.m_source
      = .ok src pos1 c1)
    (hlast : src.m_nodes.getLast? = some last)
    (hs : last.m_suffix = dataSuffix.listElement_ name keys)
    (hcur : c1.currentDataPath.m_nodes ≠ [])
    (hkw : (kw, v) ∈ move_relative_table)
    (hne : ws ≠ []) (hws : ∀ c ∈ ws, x3.isspace c = true)
    (hin : input.drop pos1 = ws ++ (kw.toList ++ rest)) :
    ∃ scratch : dataPath_,
      move_args G input begin ctx attr
        = (match x3.seq space_separator G.listSuffix input (pos1 + ws.length + kw.length)
              { c1 with m_tmpListPath := scratch } [] with
           | .ok listInstance pos c => .ok ⟨src, MoveDestination.relative ⟨v, listInstance⟩⟩ pos c
           | .fail _ pos c =>
             .fail ⟨src, MoveDestination.relative ⟨v, []⟩⟩ pos
               { c with m_errorMsg := "Expected a destination here:" }
           | .raise e c => .raise e c)
      ∧ scratch.m_nodes.length = c1.currentDataPath.m_nodes.length
      ∧ scratch.m_nodes.dropLast = c1.currentDataPath.m_nodes.dropLast
      ∧ scratch.m_nodes.getLast?
          = some (dataNode_.mk (dataNode_.m_prefix last) (dataSuffix.list_ name))
      ∧ scratch.m_scope = c1.currentDataPath.m_scope := by
  refine ⟨⟨c1.currentDataPath.m_scope, c1.currentDataPath.m_nodes.dropLast
    ++ [dataNode_.mk (dataNode_.m_prefix last) (dataSuffix.list_ name)]⟩, ?_,
    List.dropLast_append_singleton_length _ _ hcur, by simp, by simp, rfl⟩
  simp only [move_relative_table, List.mem_cons, List.mem_singleton, List.not_mem_nil, or_false,
    Prod.mk.injEq] at hkw
  have hdrop := List.drop_past input pos1 ws _ hin
  have hsym1 : x3.symbolsFind move_absolute_table (input.drop (pos1 + ws.length)) = none := by
    rw [hdrop]
    rcases hkw with ⟨rfl, rfl⟩ | ⟨rfl, rfl⟩ <;> rfl
  have hsym2 : x3.symbolsFind move_relative_table (input.drop (pos1 + ws.length))
      = some (kw.length, v) := by
    rw [hdrop]
    rcases hkw with ⟨rfl, rfl⟩ | ⟨rfl, rfl⟩ <;> rfl
  have hsp : ∀ (α : Type) (a : α),
      space_separator input pos1 c1 a = .ok a (pos1 + ws.length) c1 := by
    intro α a
    refine space_separator_ok input pos1 c1 a ws (kw.toList ++ rest) hne hws ?_ hin
    rcases hkw with ⟨rfl, rfl⟩ | ⟨rfl, rfl⟩ <;> rfl
  have hskip : x3.skip_over input (pos1 + ws.length) = pos1 + ws.length := by
    refine x3.skip_over_of_drop input (pos1 + ws.length) _ hdrop ?_
    rcases hkw with ⟨rfl, rfl⟩ | ⟨rfl, rfl⟩ <;> rfl
  simp only [move_args, x3.onField, hsrc, x3.seq, hsp, x3.variantAlt, x3.symbols, hskip, hsym1,
    hsym2, move_args.destination, hlast, hs]
  cases hn : c1.currentDataPath.m_nodes with
  | nil => exact absurd hn hcur
  | cons n ns =>
    simp only [hn]

/-- Witness of C18: `/mod:cont/protocols[name="ftp"]` becomes `/mod:cont/protocols`. -/
theorem move_args_scratch_list_path_witness :
    (move_args SubGrammars.sample "/mod:cont/protocols[name=\"ftp\"] before x".toList 0
        ParserContext.fresh move_.init).ctx.m_tmpListPath
      = ⟨Scope.Absolute,
          [dataNode_.mk (some ⟨"mod"⟩) (dataSuffix.container_ "cont"),
           dataNode_.mk none (dataSuffix.list_ "protocols")]⟩ := by
  obtain ⟨scratch, hrun, _, hdrop, hlast, hscope⟩ :=
    move_args_scratch_list_path SubGrammars.sample
      "/mod:cont/protocols[name=\"ftp\"] before x".toList 0 ParserContext.fresh move_.init
      sampleListInstancePath 31 { ParserContext.fresh with m_curPath := sampleListInstancePath }
      [' '] " x".toList "before" yang.move.Position.Before
      (dataNode_.mk none (dataSuffix.listElement_ "protocols" [("name", "ftp")]))
      "protocols" [("name", "ftp")] rfl rfl rfl (by decide) (by decide) (by decide) (by decide)
      rfl
  have hnodes := List.dropLast_append_getLast? _ (Option.mem_def.mpr hlast)
  rw [hdrop] at hnodes
  rw [hrun]
  cases scratch with
  | mk scope nodes =>
    simp only at hnodes hscope
    subst hnodes hscope
    rfl

/-- Witness of C13: cancelling while `/mod:rpc` is being composed returns to `Idle`,
and `/mod:rpc/input/x` is then routed to the main handle 0. -/
theorem cancel_returns_to_idle_witness :
    ProxyDatastore.sample.cancel.2.state = SessionState.Idle
    ∧ ProxyDatastore.sample.cancel.2.pickDatastore "/mod:rpc/input/x" = 0 :=
  ⟨(cancel_returns_to_idle ProxyDatastore.sample).2.1,
   (cancel_returns_to_idle ProxyDatastore.sample).2.2.2.2.2.1 "/mod:rpc/input/x"⟩

/-! ## The stages of `move_args` -/

theorem move_args.seq_space_symbols {β : Type} (table : List (String × β)) (input : Input)
    (pos : Nat) (c : ParserContext) (a : β) :
    x3.seq space_separator (x3.symbols table) input pos c a
      = match move_args.keywordAfter table input pos with
        | some (p, v) => .ok v p c
        | none => .fail a pos c := by
  simp only [x3.seq, space_separator, x3.symbols, move_args.keywordAfter]
  cases hk : x3.spaceRun (input.drop pos) with
  | zero => rfl
  | succ k =>
    simp only [x3.skip_over_past_space input pos (k + 1) hk]
    cases x3.symbolsFind table (input.drop (pos + (k + 1))) with
    | none => rfl
    | some r => rfl

theorem move_args.seq_space_absolute (input : Input) (pos : Nat) (c : ParserContext)
    (a : move_) :
    x3.seq space_separator
        (x3.onField move_.m_destination (fun a d => { a with m_destination := d })
          (x3.variantAlt MoveDestination.absolute yang.move.Absolute.Begin
            (x3.symbols move_absolute_table))) input pos c a
      = match move_args.keywordAfter move_absolute_table input pos with
        | some (p, v) => .ok ⟨a.m_source, MoveDestination.absolute v⟩ p c
        | none => .fail a pos c := by
  simp only [x3.seq, space_separator, x3.symbols, x3.onField, x3.variantAlt,
    move_args.keywordAfter]
  cases hk : x3.spaceRun (input.drop pos) with
  | zero => rfl
  | succ k =>
    simp only [x3.skip_over_past_space input pos (k + 1) hk]
    cases x3.symbolsFind move_absolute_table (input.drop (pos + (k + 1))) with
    | none => rfl
    | some r => rfl

theorem move_args.destination_leafListElement (G : SubGrammars) (position : yang.move.Position)
    (input : Input) (p : Nat) (c : ParserContext) (attr : move_) (last : dataNode_)
    (name : String) (value : leaf_data_)
    (hlast : attr.m_source.m_nodes.getLast? = some last)
    (hs : last.m_suffix = dataSuffix.leafListElement_ name value) :
    move_args.destination G position input p c attr
      = match x3.seq space_separator G.leaf_data input p c "" with
        | .ok value q c' =>
          .ok { attr with m_destination := .relative ⟨position, [(".", value)]⟩ } q c'
        | .fail _ q c' => .fail attr q { c' with m_errorMsg := "Expected a destination here:" }
        | .raise e c' => .raise e c' := by
  simp only [move_args.destination, hlast, hs]

theorem move_args.destination_listElement (G : SubGrammars) (position : yang.move.Position)
    (input : Input) (p : Nat) (c : ParserContext) (attr : move_) (last : dataNode_)
    (name : String) (keys : ListInstance)
    (hlast : attr.m_source.m_nodes.getLast? = some last)
    (hs : last.m_suffix = dataSuffix.listElement_ name keys)
    (hcur : c.currentDataPath.m_nodes ≠ []) :
    move_args.destination G position input p c attr
      = match x3.seq space_separator G.listSuffix input p
            { c with m_tmpListPath := move_args.scratchListPath c last name } [] with
        | .ok listInstance q c' =>
          .ok { attr with m_destination := .relative ⟨position, listInstance⟩ } q c'
        | .fail _ q c' => .fail attr q { c' with m_errorMsg := "Expected a destination here:" }
        | .raise e c' => .raise e c' := by
  simp only [move_args.destination, hlast, hs, move_args.scratchListPath]
  cases hn : c.currentDataPath.m_nodes with
  | nil => exact absurd hn hcur
  | cons n ns => simp only [hn]

/-- The destination stage returns `false` only from one of its two parses. -/
theorem move_args.destination_isFail (G : SubGrammars) (position : yang.move.Position)
    (input : Input) (p : Nat) (c : ParserContext) (attr : move_)
    (hf : (move_args.destination G position input p c attr).isFail = true) :
    ∃ last, attr.m_source.m_nodes.getLast? = some last
      ∧ ((∃ name value, last.m_suffix = dataSuffix.leafListElement_ name value)
        ∨ ((∃ name keys, last.m_suffix = dataSuffix.listElement_ name keys)
            ∧ c.currentDataPath.m_nodes ≠ [])) := by
  cases hl : attr.m_source.m_nodes.getLast? with
  | none =>
    simp only [move_args.destination, hl] at hf
    exact Bool.noConfusion hf
  | some last =>
    refine ⟨last, rfl, ?_⟩
    cases hs : last.m_suffix with
    | leafListElement_ name value => exact Or.inl ⟨name, value, rfl⟩
    | listElement_ name keys =>
      refine Or.inr ⟨⟨name, keys, rfl⟩, ?_⟩
      intro hn
      simp only [move_args.destination, hl, hs, hn] at hf
      exact Bool.noConfusion hf
    | _ =>
      exfalso
      simp only [move_args.destination, hl, hs] at hf
      cases hn : c.currentDataPath.m_nodes with
      | nil =>
        simp only [hn] at hf
        exact Bool.noConfusion hf
      | cons n ns =>
        simp only [hn] at hf
        exact Bool.noConfusion hf

theorem move_args.destination_leafListElement_isFail (G : SubGrammars)
    (position : yang.move.Position) (input : Input) (p : Nat) (c : ParserContext) (attr : move_)
    (last : dataNode_) (name : String) (value : leaf_data_)
    (hlast : attr.m_source.m_nodes.getLast? = some last)
    (hs : last.m_suffix = dataSuffix.leafListElement_ name value) :
    (move_args.destination G position input p c attr).isFail
      = (x3.seq space_separator G.leaf_data input p c "").isFail := by
  rw [move_args.destination_leafListElement G position input p c attr last name value hlast hs]
  cases x3.seq space_separator G.leaf_data input p c "" <;> rfl

theorem move_args.destination_listElement_isFail (G : SubGrammars)
    (position : yang.move.Position) (input : Input) (p : Nat) (c : ParserContext) (attr : move_)
    (last : dataNode_) (name : String) (keys : ListInstance)
    (hlast : attr.m_source.m_nodes.getLast? = some last)
    (hs : last.m_suffix = dataSuffix.listElement_ name keys)
    (hcur : c.currentDataPath.m_nodes ≠ []) :
    (move_args.destination G position input p c attr).isFail
      = (x3.seq space_separator G.listSuffix input p
          { c with m_tmpListPath := move_args.scratchListPath c last name } []).isFail := by
  rw [move_args.destination_listElement G position input p c attr last name keys hlast hs hcur]
  cases x3.seq space_separator G.listSuffix input p
    { c with m_tmpListPath := move_args.scratchListPath c last name } [] <;> rfl

/-- The destination stage returns `true` only in the context one of its two parses
has left. -/
theorem move_args.destination_ok (G : SubGrammars) (position : yang.move.Position)
    (input : Input) (p : Nat) (c : ParserContext) (attr : move_) (a : move_) (q : Nat)
    (c' : ParserContext)
    (hok : move_args.destination G position input p c attr = .ok a q c') :
    (∃ value, x3.seq space_separator G.leaf_data input p c "" = .ok value q c')
    ∨ (∃ last name listInstance, attr.m_source.m_nodes.getLast? = some last
        ∧ x3.seq space_separator G.listSuffix input p
            { c with m_tmpListPath := move_args.scratchListPath c last name } []
          = .ok listInstance q c') := by
  cases hl : attr.m_source.m_nodes.getLast? with
  | none =>
    simp only [move_args.destination, hl] at hok
    exact PResult.noConfusion hok
  | some last =>
    cases hs : last.m_suffix with
    | leafListElement_ name value =>
      rw [move_args.destination_leafListElement G position input p c attr last name value hl hs]
        at hok
      cases hr : x3.seq space_separator G.leaf_data input p c "" with
      | ok value q1 c1 =>
        rw [hr] at hok
        simp only [PResult.ok.injEq] at hok
        exact Or.inl ⟨value, by rw [hok.2.1, hok.2.2]⟩
      | fail b q1 c1 =>
        rw [hr] at hok
        exact PResult.noConfusion hok
      | raise e c1 =>
        rw [hr] at hok
        exact PResult.noConfusion hok
    | listElement_ name keys =>
      cases hn : c.currentDataPath.m_nodes with
      | nil =>
        simp only [move_args.destination, hl, hs, hn] at hok
        exact PResult.noConfusion hok
      | cons n ns =>
        have hcur : c.currentDataPath.m_nodes ≠ [] := by
          rw [hn]
          exact List.cons_ne_nil _ _
        rw [move_args.destination_listElement G position input p c attr last name keys hl hs hcur]
          at hok
        cases hr : x3.seq space_separator G.listSuffix input p
            { c with m_tmpListPath := move_args.scratchListPath c last name } [] with
        | ok li q1 c1 =>
          rw [hr] at hok
          simp only [PResult.ok.injEq] at hok
          exact Or.inr ⟨last, name, li, rfl, by rw [hr, hok.2.1, hok.2.2]⟩
        | fail b q1 c1 =>
          rw [hr] at hok
          exact PResult.noConfusion hok
        | raise e c1 =>
          rw [hr] at hok
          exact PResult.noConfusion hok
    | _ =>
      exfalso
      simp only [move_args.destination, hl, hs] at hok
      cases hn : c.currentDataPath.m_nodes with
      | nil =>
        simp only [hn] at hok
        exact PResult.noConfusion hok
      | cons n ns =>
        simp only [hn] at hok
        exact PResult.noConfusion hok

theorem move_args.source_fail (G : SubGrammars) (input : Input) (begin : Nat)
    (ctx : ParserContext) (attr : move_) (s : dataPath_) (p : Nat) (c : ParserContext)
    (h : x3.alt G.listInstancePath G.leafListElementPath input begin ctx attr.m_source
      = .fail s p c) :
    move_args G input begin ctx attr
      = .fail { attr with m_source := s } p { c with m_errorMsg := "Expected source path here:" } := by
  simp only [move_args, x3.onField, h]

theorem move_args.source_raise (G : SubGrammars) (input : Input) (begin : Nat)
    (ctx : ParserContext) (attr : move_) (e : Exn) (c : ParserContext)
    (h : x3.alt G.listInstancePath G.leafListElementPath input begin ctx attr.m_source
      = .raise e c) :
    move_args G input begin ctx attr = .raise e c := by
  simp only [move_args, x3.onField, h]

theorem move_args.source_ok (G : SubGrammars) (input : Input) (begin : Nat)
    (ctx : ParserContext) (attr : move_) (src : dataPath_) (pos1 : Nat) (c1 : ParserContext)
    (h : x3.alt G.listInstancePath G.leafListElementPath input begin ctx attr.m_source
      = .ok src pos1 c1) :
    move_args G input begin ctx attr
      = match move_args.keywordAfter move_absolute_table input pos1 with
        | some (p, v) => .ok ⟨src, MoveDestination.absolute v⟩ p c1
        | none =>
          match move_args.keywordAfter move_relative_table input pos1 with
          | none =>
            .fail ⟨src, MoveDestination.relative yang.move.Relative.init⟩ pos1
              { c1 with
                m_errorMsg := "Expected a move position (begin, end, before, after) here:" }
          | some (p, v) =>
            move_args.destination G v input p c1 ⟨src, MoveDestination.relative ⟨v, []⟩⟩ := by
  have h1 : x3.onField move_.m_source (fun a s => { a with m_source := s })
      (x3.alt G.listInstancePath G.leafListElementPath) input begin ctx attr
      = .ok { attr with m_source := src } pos1 c1 := by
    simp only [x3.onField, h]
  simp only [move_args, h1, move_args.seq_space_absolute, move_args.seq_space_symbols]
  cases move_args.keywordAfter move_absolute_table input pos1 with
  | some r => rfl
  | none =>
    simp only
    cases move_args.keywordAfter move_relative_table input pos1 with
    | none => rfl
    | some r => rfl

/-- C21: `move_args` has three stages, the source path, the position keyword (what
`space_separator >> table` matches after the source) and the destination of a
relative move (`space_separator >> leaf_data` after a leaf-list element,
`space_separator >> listSuffix`, run with the scratch list path, after a list
instance).  When the source path does not parse it returns `false` with
"Expected source path here:".  When the source parses: if an absolute keyword
follows it succeeds, in the context the source parser has left; if neither an
absolute nor a relative keyword follows it returns `false` with "Expected a move
position (begin, end, before, after) here:"; if a relative keyword follows, its
outcome is the outcome of the destination parse: success with the parsed value
or key set in the context that parse has left, `false` with "Expected a
destination here:" when that parse returns `false`.  So it returns `false`
exactly when one of the three stages does, with the message of that stage, and
it succeeds only in a context one of its sub-parsers has left: on success
`move_args` assigns no error message. -/
theorem move_args_stages (G : SubGrammars) (input : Input) (begin : Nat) (ctx : ParserContext)
    (attr : move_) :
    (∀ s p c,
        x3.alt G.listInstancePath G.leafListElementPath input begin ctx attr.m_source
          = .fail s p c →
        move_args G input begin ctx attr
          = .fail { attr with m_source := s } p
              { c with m_errorMsg := "Expected source path here:" })
    ∧ (∀ src pos1 c1,
        x3.alt G.listInstancePath G.leafListElementPath input begin ctx attr.m_source
          = .ok src pos1 c1 →
        (∀ p v, move_args.keywordAfter move_absolute_table input pos1 = some (p, v) →
            move_args G input begin ctx attr = .ok ⟨src, MoveDestination.absolute v⟩ p c1)
        ∧ (move_args.keywordAfter move_absolute_table input pos1 = none →
            move_args.keywordAfter move_relative_table input pos1 = none →
            move_args G input begin ctx attr
              = .fail ⟨src, MoveDestination.relative yang.move.Relative.init⟩ pos1
                  { c1 with
                    m_errorMsg := "Expected a move position (begin, end, before, after) here:" })
        ∧ (∀ p v last, move_args.keywordAfter move_absolute_table input pos1 = none →
            move_args.keywordAfter move_relative_table input pos1 = some (p, v) →
            src.m_nodes.getLast? = some last →
            (∀ name value, last.m_suffix = dataSuffix.leafListElement_ name value →
              move_args G input begin ctx attr
                = match x3.seq space_separator G.leaf_data input p c1 "" with
                  | .ok value q c =>
                    .ok ⟨src, MoveDestination.relative ⟨v, [(".", value)]⟩⟩ q c
                  | .fail _ q c =>
                    .fail ⟨src, MoveDestination.relative ⟨v, []⟩⟩ q
                      { c with m_errorMsg := "Expected a destination here:" }
                  | .raise e c => .raise e c)
            ∧ (∀ name keys, last.m_suffix = dataSuffix.listElement_ name keys →
              c1.currentDataPath.m_nodes ≠ [] →
              move_args G input begin ctx attr
                = match x3.seq space_separator G.listSuffix input p
                      { c1 with m_tmpListPath := move_args.scratchListPath c1 last name } [] with
                  | .ok listInstance q c =>
                    .ok ⟨src, MoveDestination.relative ⟨v, listInstance⟩⟩ q c
                  | .fail _ q c =>
                    .fail ⟨src, MoveDestination.relative ⟨v, []⟩⟩ q
                      { c with m_errorMsg := "Expected a destination here:" }
                  | .raise e c => .raise e c)))
    ∧ ((move_args G input begin ctx attr).isFail = true ↔
        (∃ s p c,
          x3.alt G.listInstancePath G.leafListElementPath input begin ctx attr.m_source
            = .fail s p c)
        ∨ (∃ src pos1 c1,
            x3.alt G.listInstancePath G.leafListElementPath input begin ctx attr.m_source
              = .ok src pos1 c1
            ∧ move_args.keywordAfter move_absolute_table input pos1 = none
            ∧ move_args.keywordAfter move_relative_table input pos1 = none)
        ∨ (∃ src pos1 c1 p v last,
            x3.alt G.listInstancePath G.leafListElementPath input begin ctx attr.m_source
              = .ok src pos1 c1
            ∧ move_args.keywordAfter move_absolute_table input pos1 = none
            ∧ move_args.keywordAfter move_relative_table input pos1 = some (p, v)
            ∧ src.m_nodes.getLast? = some last
            ∧ ((∃ name value, last.m_suffix = dataSuffix.leafListElement_ name value
                  ∧ (x3.seq space_separator G.leaf_data input p c1 "").isFail = true)
              ∨ (∃ name keys, last.m_suffix = dataSuffix.listElement_ name keys
                  ∧ c1.currentDataPath.m_nodes ≠ []
                  ∧ (x3.seq space_separator G.listSuffix input p
                      { c1 with m_tmpListPath := move_args.scratchListPath c1 last name }
                      []).isFail = true))))
    ∧ (∀ a q c, move_args G input begin ctx attr = .ok a q c →
        ∃ src pos1 c1,
          x3.alt G.listInstancePath G.leafListElementPath input begin ctx attr.m_source
            = .ok src pos1 c1
          ∧ ((∃ v, move_args.keywordAfter move_absolute_table input pos1 = some (q, v) ∧ c = c1)
            ∨ (∃ p v, move_args.keywordAfter move_relative_table input pos1 = some (p, v)
                ∧ ((∃ value, x3.seq space_separator G.leaf_data input p c1 "" = .ok value q c)
                  ∨ (∃ last name listInstance, src.m_nodes.getLast? = some last
                      ∧ x3.seq space_separator G.listSuffix input p
                          { c1 with m_tmpListPath := move_args.scratchListPath c1 last name } []
                        = .ok listInstance q c))))) := by
  refine ⟨fun s p c h => move_args.source_fail G input begin ctx attr s p c h, ?_, ?_, ?_⟩
  · intro src pos1 c1 h
    have hrun := move_args.source_ok G input begin ctx attr src pos1 c1 h
    refine ⟨fun p v hk => ?_, fun ha hr => ?_, fun p v last ha hr hlast => ⟨?_, ?_⟩⟩
    · rw [hrun, hk]
    · rw [hrun, ha, hr]
    · intro name value hs
      rw [hrun, ha, hr]
      exact move_args.destination_leafListElement G v input p c1
        ⟨src, MoveDestination.relative ⟨v, []⟩⟩ last name value hlast hs
    · intro name keys hs hcur
      rw [hrun, ha, hr]
      exact move_args.destination_listElement G v input p c1
        ⟨src, MoveDestination.relative ⟨v, []⟩⟩ last name keys hlast hs hcur
  · cases hS : x3.alt G.listInstancePath G.leafListElementPath input begin ctx attr.m_source with
    | fail s p c =>
      rw [move_args.source_fail G input begin ctx attr s p c hS]
      exact ⟨fun _ => Or.inl ⟨s, p, c, rfl⟩, fun _ => rfl⟩
    | raise e c =>
      rw [move_args.source_raise G input begin ctx attr e c hS]
      constructor
      · intro h
        exact Bool.noConfusion h
      · rintro (⟨_, _, _, h⟩ | ⟨_, _, _, h, _⟩ | ⟨_, _, _, _, _, _, h, _⟩) <;>
          exact PResult.noConfusion h
    | ok src pos1 c1 =>
      rw [move_args.source_ok G input begin ctx attr src pos1 c1 hS]
      cases ha : move_args.keywordAfter move_absolute_table input pos1 with
      | some r =>
        constructor
        · intro h
          exact Bool.noConfusion h
        · rintro (⟨_, _, _, h⟩ | ⟨_, _, _, h, ha', _⟩ | ⟨_, _, _, _, _, _, h, ha', _⟩)
          · exact PResult.noConfusion h
          · cases h
            rw [ha] at ha'
            exact Option.noConfusion ha'
          · cases h
            rw [ha] at ha'
            exact Option.noConfusion ha'
      | none =>
        cases hr : move_args.keywordAfter move_relative_table input pos1 with
        | none =>
          exact ⟨fun _ => Or.inr (Or.inl ⟨src, pos1, c1, rfl, ha, hr⟩), fun _ => rfl⟩
        | some r =>
          obtain ⟨p, v⟩ := r
          constructor
          · intro h
            obtain ⟨last, hlast, hkind⟩ := move_args.destination_isFail G v input p c1 _ h
            refine Or.inr (Or.inr ⟨src, pos1, c1, p, v, last, rfl, ha, hr, hlast, ?_⟩)
            rcases hkind with ⟨name, value, hs⟩ | ⟨⟨name, keys, hs⟩, hcur⟩
            · rw [move_args.destination_leafListElement_isFail G v input p c1 _ last name value
                hlast hs] at h
              exact Or.inl ⟨name, value, hs, h⟩
            · rw [move_args.destination_listElement_isFail G v input p c1 _ last name keys
                hlast hs hcur] at h
              exact Or.inr ⟨name, keys, hs, hcur, h⟩
          · rintro (⟨_, _, _, h⟩ | ⟨_, _, _, h, _, hr'⟩ |
              ⟨_, _, _, _, _, last, h, _, hr', hlast, hkind⟩)
            · exact PResult.noConfusion h
            · cases h
              rw [hr] at hr'
              exact Option.noConfusion hr'
            · cases h
              rw [hr] at hr'
              cases hr'
              rcases hkind with ⟨name, value, hs, hf⟩ | ⟨name, keys, hs, hcur, hf⟩
              · rw [move_args.destination_leafListElement_isFail G v input p c1 _ last name
                  value hlast hs]
                exact hf
              · rw [move_args.destination_listElement_isFail G v input p c1 _ last name keys
                  hlast hs hcur]
                exact hf
  · intro a q c hok
    cases hS : x3.alt G.listInstancePath G.leafListElementPath input begin ctx attr.m_source with
    | fail s p c' =>
      rw [move_args.source_fail G input begin ctx attr s p c' hS] at hok
      exact PResult.noConfusion hok
    | raise e c' =>
      rw [move_args.source_raise G input begin ctx attr e c' hS] at hok
      exact PResult.noConfusion hok
    | ok src pos1 c1 =>
      refine ⟨src, pos1, c1, rfl, ?_⟩
      rw [move_args.source_ok G input begin ctx attr src pos1 c1 hS] at hok
      cases ha : move_args.keywordAfter move_absolute_table input pos1 with
      | some r =>
        obtain ⟨p, v⟩ := r
        rw [ha] at hok
        simp only [PResult.ok.injEq] at hok
        exact Or.inl ⟨v, by rw [hok.2.1], hok.2.2.symm⟩
      | none =>
        rw [ha] at hok
        cases hr : move_args.keywordAfter move_relative_table input pos1 with
        | none =>
          rw [hr] at hok
          exact PResult.noConfusion hok
        | some r =>
          obtain ⟨p, v⟩ := r
          rw [hr] at hok
          exact Or.inr ⟨p, v, rfl, move_args.destination_ok G v input p c1 _ a q c hok⟩

/-- Witness of C21: over the sample schema, "bogus" fails at the source,
"... sideways" at the position keyword, "... before" at the destination, and
"... end" succeeds without an error message. -/
theorem move_args_stages_witness :
    move_args SubGrammars.sample "bogus".toList 0 ParserContext.fresh move_.init
        = .fail move_.init 0
            { ParserContext.fresh with m_errorMsg := "Expected source path here:" }
    ∧ move_args SubGrammars.sample "/mod:cont/protocols[name=\"ftp\"] sideways".toList 0
          ParserContext.fresh move_.init
        = .fail ⟨sampleListInstancePath, MoveDestination.relative yang.move.Relative.init⟩ 31
            { ParserContext.fresh with
              m_curPath := sampleListInstancePath
              m_errorMsg := "Expected a move position (begin, end, before, after) here:" }
    ∧ move_args SubGrammars.sample "/mod:cont/protocols[name=\"ftp\"] end".toList 0
          ParserContext.fresh move_.init
        = .ok ⟨sampleListInstancePath, MoveDestination.absolute yang.move.Absolute.End⟩ 35
            { ParserContext.fresh with m_curPath := sampleListInstancePath }
    ∧ move_args SubGrammars.sample "/mod:cont/protocols[name=\"ftp\"] before".toList 0
          ParserContext.fresh move_.init
        = .fail ⟨sampleListInstancePath,
              MoveDestination.relative ⟨yang.move.Position.Before, []⟩⟩ 38
            { ParserContext.fresh with
              m_curPath := sampleListInstancePath
              m_tmpListPath := ⟨Scope.Absolute,
                [dataNode_.mk (some ⟨"mod"⟩) (dataSuffix.container_ "cont"),
                 dataNode_.mk none (dataSuffix.list_ "protocols")]⟩
              m_errorMsg := "Expected a destination here:" } :=
  ⟨(move_args_stages SubGrammars.sample "bogus".toList 0 ParserContext.fresh move_.init).1
      dataPath_.init 0 ParserContext.fresh rfl,
   ((move_args_stages SubGrammars.sample "/mod:cont/protocols[name=\"ftp\"] sideways".toList 0
      ParserContext.fresh move_.init).2.1 sampleListInstancePath 31
      { ParserContext.fresh with m_curPath := sampleListInstancePath } rfl).2.1 rfl rfl,
   ((move_args_stages SubGrammars.sample "/mod:cont/protocols[name=\"ftp\"] end".toList 0
      ParserContext.fresh move_.init).2.1 sampleListInstancePath 31
      { ParserContext.fresh with m_curPath := sampleListInstancePath } rfl).1 35
      yang.move.Absolute.End rfl,
   (((move_args_stages SubGrammars.sample "/mod:cont/protocols[name=\"ftp\"] before".toList 0
      ParserContext.fresh move_.init).2.1 sampleListInstancePath 31
      { ParserContext.fresh with m_curPath := sampleListInstancePath } rfl).2.2 38
      yang.move.Position.Before
      (dataNode_.mk none (dataSuffix.listElement_ "protocols" [("name", "ftp")])) rfl rfl
      rfl).2 "protocols" [("name", "ftp")] rfl (by decide)⟩
